import Mathlib

/-!
Verification of the AIDEV-GitHub document conversion core.

This file gives a shallow embedding, over `List Char` and `String`, of the
functions of `Core/CrossReferenceProcessor.py`, `Core/DocumentProcessor.py`,
`Core/MetadataExtractor.py` and `Utils/PathManager.py` that the specification
talks about, and proves or refutes the specified properties.

Conventions of the embedding:
* Python strings are `String` / `List Char`; `re` scanning is embedded as an
  explicit left-to-right scan that tries a deterministic matcher at each
  position (the concrete regexes of the source have no observable
  backtracking, as argued at each matcher).
* Python dicts keyed by strings are association lists with insert-or-update
  (`dictSet`), which keeps keys unique and preserves Python's lookup
  semantics; registry iteration order is the list order.
* `\d` is embedded as `Char.isDigit` (the repository only ever feeds ASCII
  identifiers and timestamps to these patterns).
-/

/-! ## Basic helpers -/

/-- Whitespace test used for Python's `str.strip()` on header lines. -/
def isSpaceChar (c : Char) : Bool :=
  c = ' ' || c = '\t' || c = '\n' || c = '\r' || c = '\x0b' || c = '\x0c'

/-- Python `str.strip()` on a list of characters. -/
def pyStrip (l : List Char) : List Char :=
  ((l.dropWhile isSpaceChar).reverse.dropWhile isSpaceChar).reverse

/-- Python `str.strip()` on a string. -/
def pyStripS (s : String) : String := ⟨pyStrip s.data⟩

/-- Python `str.lower()` (ASCII). -/
def lowerS (s : String) : String := ⟨s.data.map Char.toLower⟩

/-- Python `str.upper()` (ASCII). -/
def upperS (s : String) : String := ⟨s.data.map Char.toUpper⟩

/-- Python `pat in s` substring test on character lists. -/
def containsSeq (pat : List Char) : List Char → Bool
  | [] => pat.isEmpty
  | c :: t => pat.isPrefixOf (c :: t) || containsSeq pat t

/-! ## Registry model (`DocumentRegistry` of `CrossReferenceProcessor.py`) -/

/-- One registry entry: the Python dict with optional `title` and `url` keys. -/
structure DocInfo where
  title : Option String
  url : Option String
deriving DecidableEq

/-- The document registry: identifier-keyed dict, in insertion order. -/
abbrev Registry := List (String × DocInfo)

/-- Python `DocID in DocumentRegistry` / `DocumentRegistry[DocID]`. -/
def regLookup (reg : Registry) (id : String) : Option DocInfo :=
  (reg.find? (fun e => e.1 == id)).map Prod.snd

/-! ## The three reference matchers of `ProcessCrossReferences`

Each matcher receives the characters after an opening `[` and, on
success, returns the full replacement text together with the number of
characters consumed after the `[` (so the whole match spans `1 + k`
characters). A failing matcher returns `none` and the scan advances one
character, exactly like `re.sub` scanning. -/

/-- Matcher for `\[(\d{2}-\d{2})\]` with the `ReplaceDocRef` replacement
from `CrossReferenceProcessor.py` lines 33-43: a resolved id becomes
`[id](url)`, an unresolved one is kept verbatim. -/
def docTryAfter (reg : Registry) : List Char → Option (List Char × Nat)
  | d1 :: d2 :: h :: d3 :: d4 :: rb :: _ =>
    if d1.isDigit && d2.isDigit && h = '-' && d3.isDigit && d4.isDigit && rb = ']' then
      let idChars : List Char := [d1, d2, '-', d3, d4]
      some (match regLookup reg ⟨idChars⟩ with
        | some info => '[' :: idChars ++ ']' :: '(' :: (info.url.getD "").data ++ [')']
        | none => '[' :: idChars ++ [']'], 6)
    else none
  | _ => none

/-- Matcher for `\[(\d{2}-\d{2}) §(\d+\.\d+)\]` with the `ReplaceSectionRef`
replacement from `CrossReferenceProcessor.py` lines 46-61: a resolved id
becomes `[id §sec](url#anchor)` where the anchor is the section number with
the dot removed, an unresolved one is kept verbatim. -/
def sectionTryAfter (reg : Registry) : List Char → Option (List Char × Nat)
  | d1 :: d2 :: h :: d3 :: d4 :: sp :: sec :: rest =>
    if d1.isDigit && d2.isDigit && h = '-' && d3.isDigit && d4.isDigit &&
        sp = ' ' && sec = '§' then
      let r1 := rest.takeWhile Char.isDigit
      match rest.dropWhile Char.isDigit with
      | '.' :: rest2 =>
        let r2 := rest2.takeWhile Char.isDigit
        match rest2.dropWhile Char.isDigit with
        | ']' :: _ =>
          if r1.isEmpty || r2.isEmpty then none else
          let idChars : List Char := [d1, d2, '-', d3, d4]
          let secChars : List Char := r1 ++ '.' :: r2
          some (match regLookup reg ⟨idChars⟩ with
            | some info =>
                '[' :: idChars ++ ' ' :: '§' :: secChars ++ ']' :: '(' ::
                  (info.url.getD "").data ++ '#' :: (r1 ++ r2) ++ [')']
            | none => '[' :: idChars ++ ' ' :: '§' :: secChars ++ [']'],
            7 + r1.length + 1 + r2.length + 1)
        | _ => none
      | _ => none
    else none
  | _ => none

/-- Replacement computed by `ReplaceDecisionRef` (`CrossReferenceProcessor.py`
lines 64-76) for a matched decision id: linear scan of the registry for an
entry whose title starts with `DECISION` and contains the id; on a hit the
entry's url with the lowercased id as anchor, otherwise the synthetic
governance link. -/
def decisionRepl (reg : Registry) (idChars : List Char) : List Char :=
  match reg.find? (fun e =>
      "DECISION".data.isPrefixOf (e.2.title.getD "").data &&
      containsSeq idChars (e.2.title.getD "").data) with
  | some e =>
      '[' :: idChars ++ ']' :: '(' :: (e.2.url.getD "").data ++
        '#' :: idChars.map Char.toLower ++ [')']
  | none =>
      '[' :: idChars ++ ']' :: '(' ::
        "\x7b\x7b site.baseurl \x7d\x7d/docs/governance/decisions/#".data ++
        idChars.map Char.toLower ++ [')']

/-- Matcher for `\[(DECISION-\d{8}-\d+)\]` using `decisionRepl`; this
reference type always produces a replacement when the pattern matches. -/
def decisionTryAfter (reg : Registry) : List Char → Option (List Char × Nat)
  | 'D' :: 'E' :: 'C' :: 'I' :: 'S' :: 'I' :: 'O' :: 'N' :: '-' ::
      e1 :: e2 :: e3 :: e4 :: e5 :: e6 :: e7 :: e8 :: h :: rest =>
    if e1.isDigit && e2.isDigit && e3.isDigit && e4.isDigit && e5.isDigit &&
        e6.isDigit && e7.isDigit && e8.isDigit && h = '-' then
      let r := rest.takeWhile Char.isDigit
      match rest.dropWhile Char.isDigit with
      | ']' :: _ =>
        if r.isEmpty then none else
        let idChars : List Char :=
          ['D', 'E', 'C', 'I', 'S', 'I', 'O', 'N', '-'] ++
            [e1, e2, e3, e4, e5, e6, e7, e8] ++ '-' :: r
        some (decisionRepl reg idChars, 18 + r.length + 1)
      | _ => none
    else none
  | _ => none

/-! ## The substitution scan (`re.sub` over one pattern)

All three patterns begin with a literal `[`, so the scan only consults the
matcher at a `[`. A fuel parameter makes the recursion structural; the fuel
is initialised with the length of the list and never runs out. -/

/-- Fuelled scan: at each `[` try the matcher; on success emit the
replacement and continue after the match, otherwise emit the character. -/
def subScanF (t : List Char → Option (List Char × Nat)) :
    Nat → List Char → List Char
  | 0, l => l
  | _ + 1, [] => []
  | f + 1, c :: cs =>
    if c = '[' then
      match t cs with
      | some (r, k) => r ++ subScanF t f (cs.drop k)
      | none => c :: subScanF t f cs
    else c :: subScanF t f cs

/-- One `re.sub` pass over the whole text. -/
def subScan (t : List Char → Option (List Char × Nat)) (l : List Char) :
    List Char :=
  subScanF t l.length l

/-- `ProcessCrossReferences` from `CrossReferenceProcessor.py`: the document
reference pass, then the section reference pass, then the decision
reference pass. -/
def ProcessCrossReferences (content : String) (reg : Registry) : String :=
  ⟨subScan (decisionTryAfter reg)
    (subScan (sectionTryAfter reg)
      (subScan (docTryAfter reg) content.data))⟩

/-- A tiny registry whose only entry carries a decision title, used by
concrete witnesses. -/
def regDec : Registry :=
  [("10-20", ⟨some "DECISION-20250101-1 choices", some "u2"⟩)]

/-- A tiny registry used by concrete counterexamples and witnesses. -/
def regZero : Registry := [("10-20", ⟨some "T", some "u"⟩)]

/-! ## Document processing (`DocumentProcessor.py`) -/

/-- Python `line.startswith(pat)`, over character lists. -/
def lineStarts (pat : String) (l : List Char) : Bool := pat.data.isPrefixOf l

/-- A line is blank when `line.strip() == ''`. -/
def isBlankLine (l : List Char) : Bool := l.all isSpaceChar

/-- First skip loop of `RemoveMetadataHeader` (lines 103-108): Created or
Last-Modified bold markers and blank lines. -/
def headerP1 (l : List Char) : Bool :=
  lineStarts "**Created:" l || lineStarts "**Last Modified:" l || isBlankLine l

/-- Second skip loop of `RemoveMetadataHeader` (lines 111-115): metadata tag
lines (starting with `[` and containing `]`) and blank lines. -/
def headerP2 (l : List Char) : Bool :=
  (lineStarts "[" l && l.contains ']') || isBlankLine l

/-- Python `Content.split('\n')`, over character lists: always at least one
(possibly empty) line. -/
def splitLinesL : List Char → List (List Char)
  | [] => [[]]
  | c :: cs =>
    if c = '\n' then [] :: splitLinesL cs
    else
      match splitLinesL cs with
      | [] => [[c]]
      | l :: ls => (c :: l) :: ls

/-- Python `'\n'.join(lines)`. -/
def joinLines : List (List Char) → List Char
  | [] => []
  | [l] => l
  | l :: ls => l ++ '\n' :: joinLines ls

/-- Title-line skip of `RemoveMetadataHeader` (lines 98-99). -/
def afterTitleDrop : List (List Char) → List (List Char)
  | [] => []
  | l :: rest => if lineStarts "# " l then rest else l :: rest

/-- `RemoveMetadataHeader` from `DocumentProcessor.py` lines 76-118: skip the
title line, then the first loop's lines, then the second loop's lines, and
join what remains. -/
def RemoveMetadataHeader (content : String) : String :=
  ⟨joinLines
    (((afterTitleDrop (splitLinesL content.data)).dropWhile
      headerP1).dropWhile headerP2)⟩

/-- The union predicate of the claimed header-removal behaviour. -/
def headerPUnion (l : List Char) : Bool :=
  lineStarts "**Created:" l || lineStarts "**Last Modified:" l ||
    (lineStarts "[" l && l.contains ']') || isBlankLine l

/-- The claimed header removal, following the specification's words: one
single contiguous run of marker, tag or blank lines is dropped after the
title line, stopping at the first line matching none of these. -/
def RemoveMetadataHeaderClaimed (content : String) : String :=
  ⟨joinLines ((afterTitleDrop (splitLinesL content.data)).dropWhile
    headerPUnion)⟩

/-- Python `s.replace(pat, rep)`: left-to-right, non-overlapping, advancing
one character on mismatch. Fuelled to keep the recursion structural; the
fuel is initialised with the length of the list and suffices because every
pattern used here is nonempty. -/
def replaceAllF (pat rep : List Char) : Nat → List Char → List Char
  | 0, l => l
  | _ + 1, [] => []
  | f + 1, c :: cs =>
    if pat.isPrefixOf (c :: cs) then
      rep ++ replaceAllF pat rep f ((c :: cs).drop pat.length)
    else c :: replaceAllF pat rep f cs

/-- Python `s.replace(pat, rep)` over a whole character list. -/
def replaceAll (pat rep l : List Char) : List Char := replaceAllF pat rep l.length l

/-- `ProcessJekyllIncompatibleContent` from `DocumentProcessor.py` lines
120-145: four sequential Liquid-escape replacements followed by the two
triple-brace replacements, in source order. -/
def ProcessJekyllIncompatibleContent (content : String) : String :=
  ⟨replaceAll "\x7d\x7d\x7d".data "&#125;&#125;&#125;".data
    (replaceAll "\x7b\x7b\x7b".data "&#123;&#123;&#123;".data
      (replaceAll " %\x7d".data " \x7b\x7b \"%\x7d\" \x7d\x7d".data
        (replaceAll " \x7d\x7d".data " \x7b\x7b \"\x7d\x7d\" \x7d\x7d".data
          (replaceAll "\x7b\x7b ".data "\x7b\x7b \"\x7b\x7b \" \x7d\x7d".data
            (replaceAll "\x7b% ".data "\x7b\x7b \"\x7b% \" \x7d\x7d".data
              content.data)))))⟩

/-! ## Document id extraction (`PathManager.py` `GetDocumentID`) -/

/-- Pattern `^(\d{2}-\d{2})[- _]`: identifier plus separator at the start. -/
def p1Match : List Char → Option (List Char)
  | d1 :: d2 :: h :: d3 :: d4 :: sep :: _ =>
    if d1.isDigit && d2.isDigit && h = '-' && d3.isDigit && d4.isDigit &&
        (sep = '-' || sep = ' ' || sep = '_') then
      some [d1, d2, '-', d3, d4]
    else none
  | _ => none

/-- Pattern `^(\d{2}-\d{2})\.md$`: identifier as the entire `.md` filename. -/
def p2Match : List Char → Option (List Char)
  | [d1, d2, h, d3, d4, '.', 'm', 'd'] =>
    if d1.isDigit && d2.isDigit && h = '-' && d3.isDigit && d4.isDigit then
      some [d1, d2, '-', d3, d4]
    else none
  | _ => none

/-- Pattern `-(\d{2}-\d{2})\.md$`: identifier as a dash-separated suffix
before the `.md` extension; the end anchor pins the only possible match. -/
def p3Match (l : List Char) : Option (List Char) :=
  match l.reverse with
  | 'd' :: 'm' :: '.' :: e4 :: e3 :: h :: e2 :: e1 :: h2 :: _ =>
    if e1.isDigit && e2.isDigit && h = '-' && e3.isDigit && e4.isDigit &&
        h2 = '-' then
      some [e1, e2, '-', e3, e4]
    else none
  | _ => none

/-- `GetDocumentID` from `PathManager.py` lines 16-48: the three patterns are
tried in order and the first match wins; no match yields the empty string. -/
def GetDocumentID (f : String) : String :=
  match p1Match f.data with
  | some id => ⟨id⟩
  | none =>
    match p2Match f.data with
    | some id => ⟨id⟩
    | none =>
      match p3Match f.data with
      | some id => ⟨id⟩
      | none => ""

/-! ## Timestamp parsing (`MetadataExtractor.py` `ParseTimestamp`)

`datetime.strptime` compiles each format to a regex (whitespace in the
format becomes `\s+`, the whole match is anchored and must consume the full
string). For the five formats used here every quantified piece is followed
by a token no digit or letter can satisfy, so the regex engine's
backtracking never changes the outcome and a deterministic longest-first
parse is equivalent; the parsers below embed exactly that. -/

/-- A parsed `datetime` value. -/
structure DateTime where
  year : Nat
  month : Nat
  day : Nat
  hour : Nat
  minute : Nat
deriving DecidableEq

/-- Gregorian leap year, as `datetime` validates days. -/
def isLeap (y : Nat) : Bool := y % 4 = 0 && (y % 100 ≠ 0 || y % 400 = 0)

/-- Days of a month, as `datetime` validates days. -/
def daysInMonth (y m : Nat) : Nat :=
  if m = 2 then (if isLeap y then 29 else 28)
  else if m = 4 || m = 6 || m = 9 || m = 11 then 30
  else 31

/-- The `datetime(...)` constructor: validates all ranges, failing like the
`ValueError` the Python constructor raises. -/
def mkDatetime (y mo d h mi : Nat) : Option DateTime :=
  if 1 ≤ y && y ≤ 9999 && 1 ≤ mo && mo ≤ 12 && 1 ≤ d && d ≤ daysInMonth y mo
      && h ≤ 23 && mi ≤ 59 then
    some ⟨y, mo, d, h, mi⟩
  else none

/-- Numeric value of a digit string. -/
def digitsToNat (l : List Char) : Nat :=
  l.foldl (fun a c => a * 10 + (c.toNat - 48)) 0

/-- Month names with their numbers, as in the fallback's dictionary and in
`%B`. -/
def monthNames : List (String × Nat) :=
  [("January", 1), ("February", 2), ("March", 3), ("April", 4),
   ("May", 5), ("June", 6), ("July", 7), ("August", 8),
   ("September", 9), ("October", 10), ("November", 11), ("December", 12)]

/-- `%B`: a full month name, case-insensitively (no month name is a prefix
of another, so the order of alternatives is immaterial). -/
def parseMonthB (l : List Char) : Option (Nat × List Char) :=
  monthNames.findSome? fun nm =>
    if (nm.1.data.map Char.toLower).isPrefixOf (l.map Char.toLower) then
      some (nm.2, l.drop nm.1.length)
    else none

/-- Exactly `n` digits. -/
def parseDigitsN (n : Nat) (l : List Char) : Option (Nat × List Char) :=
  if (l.take n).length = n && (l.take n).all Char.isDigit then
    some (digitsToNat (l.take n), l.drop n)
  else none

/-- `\s+`: one or more whitespace characters, greedily. -/
def parseWs1 : List Char → Option (List Char)
  | c :: cs => if isSpaceChar c then some (cs.dropWhile isSpaceChar) else none
  | [] => none

/-- A literal character. -/
def parseLit (x : Char) : List Char → Option (List Char)
  | c :: cs => if c = x then some cs else none
  | [] => none

/-- `%d`: `(3[01]|[12]\d|0[1-9]|[1-9])`. -/
def parseDay : List Char → Option (Nat × List Char)
  | c1 :: c2 :: rest =>
    if c1 = '3' && (c2 = '0' || c2 = '1') then some (digitsToNat [c1, c2], rest)
    else if (c1 = '1' || c1 = '2') && c2.isDigit then some (digitsToNat [c1, c2], rest)
    else if c1 = '0' && c2.isDigit && c2 ≠ '0' then some (digitsToNat [c1, c2], rest)
    else if c1.isDigit && c1 ≠ '0' then some (digitsToNat [c1], c2 :: rest)
    else none
  | [c1] => if c1.isDigit && c1 ≠ '0' then some (digitsToNat [c1], []) else none
  | [] => none

/-- `%I` and `%m`: `(1[0-2]|0[1-9]|[1-9])`. -/
def parseHour12 : List Char → Option (Nat × List Char)
  | c1 :: c2 :: rest =>
    if c1 = '1' && (c2 = '0' || c2 = '1' || c2 = '2') then
      some (digitsToNat [c1, c2], rest)
    else if c1 = '0' && c2.isDigit && c2 ≠ '0' then some (digitsToNat [c1, c2], rest)
    else if c1.isDigit && c1 ≠ '0' then some (digitsToNat [c1], c2 :: rest)
    else none
  | [c1] => if c1.isDigit && c1 ≠ '0' then some (digitsToNat [c1], []) else none
  | [] => none

/-- `%H`: `([01]\d|2[0-3]|\d)`. -/
def parseHour24 : List Char → Option (Nat × List Char)
  | c1 :: c2 :: rest =>
    if (c1 = '0' || c1 = '1') && c2.isDigit then some (digitsToNat [c1, c2], rest)
    else if c1 = '2' && (c2 = '0' || c2 = '1' || c2 = '2' || c2 = '3') then
      some (digitsToNat [c1, c2], rest)
    else if c1.isDigit then some (digitsToNat [c1], c2 :: rest)
    else none
  | [c1] => if c1.isDigit then some (digitsToNat [c1], []) else none
  | [] => none

/-- `%M`: `([0-5]\d|\d)`. -/
def parseMinute : List Char → Option (Nat × List Char)
  | c1 :: c2 :: rest =>
    if c1.isDigit && c1 ≤ '5' && c2.isDigit then some (digitsToNat [c1, c2], rest)
    else if c1.isDigit then some (digitsToNat [c1], c2 :: rest)
    else none
  | [c1] => if c1.isDigit then some (digitsToNat [c1], []) else none
  | [] => none

/-- `%p`: AM or PM, case-insensitively; returns `true` for PM. -/
def parseAmPm : List Char → Option (Bool × List Char)
  | c1 :: c2 :: rest =>
    if (c1.toUpper = 'A' || c1.toUpper = 'P') && c2.toUpper = 'M' then
      some (c1.toUpper = 'P', rest)
    else none
  | _ => none

/-- The 12-hour to 24-hour conversion `strptime` applies for `%I` + `%p`. -/
def hour12To24 (h : Nat) (pm : Bool) : Nat :=
  if pm then (if h = 12 then 12 else h + 12) else (if h = 12 then 0 else h)

/-- Format `"%B %d, %Y %I:%M %p"` (and its variant with two spaces before
the time, which compiles to the same `\s+`-separated regex). -/
def parseFmt1 (l : List Char) : Option DateTime := do
  let (mo, l) ← parseMonthB l
  let l ← parseWs1 l
  let (d, l) ← parseDay l
  let l ← parseLit ',' l
  let l ← parseWs1 l
  let (y, l) ← parseDigitsN 4 l
  let l ← parseWs1 l
  let (h, l) ← parseHour12 l
  let l ← parseLit ':' l
  let (mi, l) ← parseMinute l
  let l ← parseWs1 l
  let (pm, l) ← parseAmPm l
  if l.isEmpty then mkDatetime y mo d (hour12To24 h pm) mi else none

/-- Format `"%B %d, %Y  %I:%M%p"`: no whitespace between minutes and AM/PM. -/
def parseFmt2 (l : List Char) : Option DateTime := do
  let (mo, l) ← parseMonthB l
  let l ← parseWs1 l
  let (d, l) ← parseDay l
  let l ← parseLit ',' l
  let l ← parseWs1 l
  let (y, l) ← parseDigitsN 4 l
  let l ← parseWs1 l
  let (h, l) ← parseHour12 l
  let l ← parseLit ':' l
  let (mi, l) ← parseMinute l
  let (pm, l) ← parseAmPm l
  if l.isEmpty then mkDatetime y mo d (hour12To24 h pm) mi else none

/-- Format `"%Y-%m-%d %H:%M"`. -/
def parseFmt4 (l : List Char) : Option DateTime := do
  let (y, l) ← parseDigitsN 4 l
  let l ← parseLit '-' l
  let (mo, l) ← parseHour12 l
  let l ← parseLit '-' l
  let (d, l) ← parseDay l
  let l ← parseWs1 l
  let (h, l) ← parseHour24 l
  let l ← parseLit ':' l
  let (mi, l) ← parseMinute l
  if l.isEmpty then mkDatetime y mo d h mi else none

/-- Format `"%Y-%m-%d"`. -/
def parseFmt5 (l : List Char) : Option DateTime := do
  let (y, l) ← parseDigitsN 4 l
  let l ← parseLit '-' l
  let (mo, l) ← parseHour12 l
  let l ← parseLit '-' l
  let (d, l) ← parseDay l
  if l.isEmpty then mkDatetime y mo d 0 0 else none

/-- The ordered format list of `ParseTimestamp` (`MetadataExtractor.py`
lines 101-113); formats 1 and 3 compile to the same regex. -/
def strptimeFormats : List (List Char → Option DateTime) :=
  [parseFmt1, parseFmt2, parseFmt1, parseFmt4, parseFmt5]

/-- `([A-Z][a-z]+)` with greedy lowercase run. -/
def parseUpperWord : List Char → Option (List Char × List Char)
  | c :: cs =>
    if c.isUpper then
      if (cs.takeWhile Char.isLower).isEmpty then none
      else some (c :: cs.takeWhile Char.isLower, cs.dropWhile Char.isLower)
    else none
  | [] => none

/-- `,?\s+`: optional comma, then mandatory whitespace. -/
def parseCommaWs : List Char → Option (List Char)
  | ',' :: rest => parseWs1 rest
  | l => parseWs1 l

/-- `(\d{1,2})` with greedy two-digit preference. -/
def parseD12 : List Char → Option (Nat × List Char)
  | c1 :: c2 :: rest =>
    if c1.isDigit && c2.isDigit then some (digitsToNat [c1, c2], rest)
    else if c1.isDigit then some (digitsToNat [c1], c2 :: rest)
    else none
  | [c1] => if c1.isDigit then some (digitsToNat [c1], []) else none
  | [] => none

/-- `([AP]M)?`, case-sensitively, never failing. -/
def parseAmPmOpt : List Char → Option String × List Char
  | 'A' :: 'M' :: rest => (some "AM", rest)
  | 'P' :: 'M' :: rest => (some "PM", rest)
  | l => (none, l)

/-- The fallback's AM/PM adjustment (`MetadataExtractor.py` lines 139-142). -/
def adjustHour (h : Nat) (ampm : Option String) : Nat :=
  match ampm with
  | some s =>
    if upperS s == "PM" && h < 12 then h + 12
    else if upperS s == "AM" && h == 12 then 0
    else h
  | none => h

/-- Exact month dictionary lookup of the fallback (lines 123-129). -/
def monthExact (nm : List Char) : Option Nat :=
  (monthNames.find? (fun e => e.1.data == nm)).map Prod.snd

/-- The fallback parser of `ParseTimestamp` (lines 117-146): the tolerant
regex `([A-Z][a-z]+)\s+(\d{1,2}),?\s+(\d{4})\s+(\d{1,2}):(\d{2})\s*([AP]M)?`
matched as a prefix, then the manual month map and AM/PM normalization. -/
def fallbackParse (l : List Char) : Option DateTime := do
  let (mon, l) ← parseUpperWord l
  let l ← parseWs1 l
  let (d, l) ← parseD12 l
  let l ← parseCommaWs l
  let (y, l) ← parseDigitsN 4 l
  let l ← parseWs1 l
  let (h, l) ← parseD12 l
  let l ← parseLit ':' l
  let (mi, l) ← parseDigitsN 2 l
  let ampm := (parseAmPmOpt (l.dropWhile isSpaceChar)).1
  let moNum ← monthExact mon
  mkDatetime y moNum d (adjustHour h ampm) mi

/-- `ParseTimestamp` from `MetadataExtractor.py` lines 83-148: the format
loop, then the fallback; `none` stands for the raised `ValueError`. -/
def ParseTimestamp (s : String) : Option DateTime :=
  match strptimeFormats.findSome? (fun p => p s.data) with
  | some dt => some dt
  | none => fallbackParse s.data

/-- Zero-padded two-digit rendering used by `strftime("%Y-%m-%d")`. -/
def pad2 (n : Nat) : String := if n < 10 then "0" ++ toString n else toString n

/-- `dt.strftime("%Y-%m-%d")`. -/
def formatDate (dt : DateTime) : String :=
  toString dt.year ++ "-" ++ pad2 dt.month ++ "-" ++ pad2 dt.day

/-! ## Metadata extraction (`MetadataExtractor.py` `ExtractMetadata`) -/

/-- Lazy capture of `(.+?)\*\*` at a fixed position: at least one character,
none of them a newline, up to the first `**`. -/
def lazyToStars : List Char → Option (List Char)
  | [] => none
  | c :: cs =>
    if c = '\n' then none
    else
      match cs with
      | '*' :: '*' :: _ => some [c]
      | _ => (lazyToStars cs).map (fun cap => c :: cap)

/-- `re.search` for a bold marker `marker(.+?)\*\*`: try every start
position left to right and return the first successful capture. -/
def searchBold (marker : List Char) : List Char → Option (List Char)
  | [] => none
  | c :: cs =>
    if marker.isPrefixOf (c :: cs) then
      match lazyToStars ((c :: cs).drop marker.length) with
      | some cap => some cap
      | none => searchBold marker cs
    else searchBold marker cs

/-- The captured and stripped `**Created: ...**` value (lines 42-44). -/
def createdCapture (content : String) : Option String :=
  (searchBold "**Created: ".data content.data).map (fun cap => pyStripS ⟨cap⟩)

/-- The captured and stripped `**Last Modified: ...**` value (lines 55-57). -/
def modifiedCapture (content : String) : Option String :=
  (searchBold "**Last Modified: ".data content.data).map (fun cap => pyStripS ⟨cap⟩)

/-- The title captured by `^# (.+?)$` in multiline mode (lines 37-39): the
first line starting with `# ` and owning at least one further character. -/
def titleCapture (content : String) : Option String :=
  ((splitLinesL content.data).find?
    (fun l => lineStarts "# " l && 3 ≤ l.length)).map
    (fun l => pyStripS ⟨l.drop 2⟩)

/-- One attempted match of the context-tag pattern `\[([^:\]]+): ([^\]]+)\]`
just after a `[`: greedy key run, literal `: `, greedy value run, closing
bracket; returns key, value and the number of characters consumed. -/
def ctxTryAfter (cs : List Char) : Option (String × String × Nat) :=
  let key := cs.takeWhile (fun c => !(c = ':' || c = ']'))
  if key.isEmpty then none
  else
    match cs.dropWhile (fun c => !(c = ':' || c = ']')) with
    | ':' :: ' ' :: rest2 =>
      let v := rest2.takeWhile (fun c => c ≠ ']')
      if v.isEmpty then none
      else
        match rest2.dropWhile (fun c => c ≠ ']') with
        | ']' :: _ => some (⟨key⟩, ⟨v⟩, key.length + 2 + v.length + 1)
        | _ => none
    | _ => none

/-- `re.finditer` scan for context tags, fuelled like `subScanF`. -/
def ctxScanF : Nat → List Char → List (String × String)
  | 0, _ => []
  | _ + 1, [] => []
  | f + 1, c :: cs =>
    if c = '[' then
      match ctxTryAfter cs with
      | some (k, v, n) => (k, v) :: ctxScanF f (cs.drop n)
      | none => ctxScanF f cs
    else ctxScanF f cs

/-- All context-tag matches of a document, in document order (lines 68-69). -/
def contextTags (content : String) : List (String × String) :=
  ctxScanF content.data.length content.data

/-- `re.search(r'(\d{2}-\d{2})', Content)` (line 75): the leftmost bare
identifier match. -/
def docNumberSearch : List Char → Option String
  | d1 :: d2 :: h :: d3 :: d4 :: rest =>
    if d1.isDigit && d2.isDigit && h = '-' && d3.isDigit && d4.isDigit then
      some ⟨[d1, d2, '-', d3, d4]⟩
    else docNumberSearch (d2 :: h :: d3 :: d4 :: rest)
  | _ => none

/-- Python dict assignment `m[k] = v`: update in place or append. -/
def dictSet (m : List (String × String)) (k v : String) :
    List (String × String) :=
  if m.any (fun e => e.1 == k) then m.map (fun e => if e.1 == k then (k, v) else e)
  else m ++ [(k, v)]

/-- Python dict lookup `m.get(k)`. -/
def dictGet (m : List (String × String)) (k : String) : Option String :=
  (m.find? (fun e => e.1 == k)).map Prod.snd

/-- Title extraction stage (lines 37-39). -/
def titleStage (content : String) (m : List (String × String)) :
    List (String × String) :=
  match titleCapture content with
  | some t => dictSet m "title" t
  | none => m

/-- Timestamp marker stage (lines 42-52 and 55-65): store the verbatim
value, then additionally store the normalized date only when the parse
succeeds; a parse failure is swallowed. -/
def markerStage (cap : String → Option String) (key datekey : String)
    (content : String) (m : List (String × String)) : List (String × String) :=
  match cap content with
  | some v =>
    let m1 := dictSet m key v
    match ParseTimestamp v with
    | some dt => dictSet m1 datekey (formatDate dt)
    | none => m1
  | none => m

/-- Context-tag stage (lines 67-72): lowercased keys, stripped values,
document order, last write wins. -/
def tagStage (content : String) (m : List (String × String)) :
    List (String × String) :=
  (contextTags content).foldl (fun m kv => dictSet m (lowerS kv.1) (pyStripS kv.2)) m

/-- Bare identifier stage (lines 74-77). -/
def docNumStage (content : String) (m : List (String × String)) :
    List (String × String) :=
  match docNumberSearch content.data with
  | some id => dictSet m "doc_number" id
  | none => m

/-- `ExtractMetadata` from `MetadataExtractor.py` lines 15-81: the stages in
source order over an initially empty dict. -/
def ExtractMetadata (content : String) : List (String × String) :=
  docNumStage content
    (tagStage content
      (markerStage modifiedCapture "modified_at" "modified_date" content
        (markerStage createdCapture "created_at" "created_date" content
          (titleStage content []))))

/-! ## Shapes used by the stated properties -/

/-- A bracket-delimited span: starts with `[`, ends with `]`, no bracket in
the interior. Every span any of the three reference patterns can match has
this shape, which is why distinct matches can never partially overlap. -/
def BracketShaped (s : List Char) : Prop :=
  ∃ mid, s = '[' :: mid ++ [']'] ∧ ∀ c ∈ mid, c ≠ '[' ∧ c ≠ ']'

/-- The text of a document reference `[dd-dd]`. -/
def docSpanOf (d1 d2 d3 d4 : Char) : List Char :=
  ['[', d1, d2, '-', d3, d4, ']']

/-- The identifier inside a document or section reference. -/
def docIdOf (d1 d2 d3 d4 : Char) : String := ⟨[d1, d2, '-', d3, d4]⟩

/-- The text of a section reference `[dd-dd §r1.r2]`. -/
def sectionSpanOf (d1 d2 d3 d4 : Char) (r1 r2 : List Char) : List Char :=
  '[' :: d1 :: d2 :: '-' :: d3 :: d4 :: ' ' :: '§' :: (r1 ++ '.' :: (r2 ++ [']']))

/-- The identifier inside a decision reference, `DECISION-`, eight digits,
`-`, a digit run. -/
def decisionIdOf (e r : List Char) : List Char :=
  ['D', 'E', 'C', 'I', 'S', 'I', 'O', 'N', '-'] ++ e ++ '-' :: r

/-- The text of a decision reference `[DECISION-dddddddd-r]`. -/
def decisionSpanOf (e r : List Char) : List Char :=
  '[' :: decisionIdOf e r ++ [']']

/-- The value of the last context tag whose lowercased key is `key`. -/
def lastTagValue (content : String) (key : String) : Option String :=
  (((contextTags content).filter (fun kv => lowerS kv.1 == key)).getLast?).map
    Prod.snd

/-- Filename shape matched by `GetDocumentID`'s first pattern
`^(\d{2}-\d{2})[- _]`. -/
def Shape1 (f : String) : Prop :=
  ∃ d1 d2 d3 d4 sep rest, d1.isDigit = true ∧ d2.isDigit = true ∧
    d3.isDigit = true ∧ d4.isDigit = true ∧
    (sep = '-' ∨ sep = ' ' ∨ sep = '_') ∧
    f.data = d1 :: d2 :: '-' :: d3 :: d4 :: sep :: rest

/-- Filename shape matched by `GetDocumentID`'s second pattern
`^(\d{2}-\d{2})\.md$`. -/
def Shape2 (f : String) : Prop :=
  ∃ d1 d2 d3 d4, d1.isDigit = true ∧ d2.isDigit = true ∧
    d3.isDigit = true ∧ d4.isDigit = true ∧
    f.data = [d1, d2, '-', d3, d4, '.', 'm', 'd']

/-- Filename shape matched by `GetDocumentID`'s third pattern
`-(\d{2}-\d{2})\.md$`. -/
def Shape3 (f : String) : Prop :=
  ∃ pre d1 d2 d3 d4, d1.isDigit = true ∧ d2.isDigit = true ∧
    d3.isDigit = true ∧ d4.isDigit = true ∧
    f.data = pre ++ '-' :: d1 :: d2 :: '-' :: d3 :: d4 :: '.' :: 'm' :: ['d']

/-! ## Lemmas about the substitution scan -/

theorem subScanF_fuel (t : List Char → Option (List Char × Nat)) :
    ∀ f g l, l.length ≤ f → l.length ≤ g → subScanF t f l = subScanF t g l := by
  intro f
  induction f with
  | zero =>
    intro g l hf _
    have hl : l = [] := List.length_eq_zero.mp (Nat.le_zero.mp hf)
    subst hl
    cases g <;> simp [subScanF]
  | succ f ih =>
    intro g l hf hg
    cases l with
    | nil => cases g <;> simp [subScanF]
    | cons c cs =>
      cases g with
      | zero => simp at hg
      | succ g =>
        have hfreq : cs.length ≤ f := by simpa using hf
        have hgreq : cs.length ≤ g := by simpa using hg
        simp only [subScanF]
        by_cases hc : c = '['
        · rw [if_pos hc, if_pos hc]
          cases ht : t cs with
          | none => simp [ih g cs hfreq hgreq]
          | some rk =>
            obtain ⟨r, k⟩ := rk
            have hd : (cs.drop k).length ≤ f := by
              simp only [List.length_drop]; omega
            have hd' : (cs.drop k).length ≤ g := by
              simp only [List.length_drop]; omega
            simp [ih g _ hd hd']
        · rw [if_neg hc, if_neg hc, ih g cs hfreq hgreq]

theorem subScan_nil (t : List Char → Option (List Char × Nat)) :
    subScan t [] = [] := rfl

theorem subScan_cons (t : List Char → Option (List Char × Nat)) (c : Char)
    (cs : List Char) :
    subScan t (c :: cs) =
      if c = '[' then
        match t cs with
        | some (r, k) => r ++ subScan t (cs.drop k)
        | none => c :: subScan t cs
      else c :: subScan t cs := by
  show subScanF t (c :: cs).length (c :: cs) = _
  simp only [List.length_cons, subScanF]
  by_cases hc : c = '['
  · rw [if_pos hc, if_pos hc]
    cases ht : t cs with
    | none => simp [subScan]
    | some rk =>
      obtain ⟨r, k⟩ := rk
      have heq : subScanF t cs.length (cs.drop k) = subScan t (cs.drop k) :=
        subScanF_fuel t cs.length (cs.drop k).length (cs.drop k)
          (by simp only [List.length_drop]; omega) le_rfl
      simp [heq]
  · rw [if_neg hc, if_neg hc]
    rfl

theorem subScan_append_no_bracket (t : List Char → Option (List Char × Nat))
    (p rest : List Char) (hp : ∀ c ∈ p, c ≠ '[') :
    subScan t (p ++ rest) = p ++ subScan t rest := by
  induction p with
  | nil => simp
  | cons c p ih =>
    have hc : c ≠ '[' := hp c (List.mem_cons_self c p)
    rw [List.cons_append, subScan_cons, if_neg hc,
      ih (fun d hd => hp d (List.mem_cons_of_mem c hd))]
    rfl

theorem subScan_no_bracket (t : List Char → Option (List Char × Nat))
    (l : List Char) (hl : ∀ c ∈ l, c ≠ '[') : subScan t l = l := by
  have h := subScan_append_no_bracket t l [] hl
  simpa [subScan_nil] using h

theorem bracket_pre_eq_of_le {s1 s2 t1 t2 l : List Char}
    (h1 : BracketShaped s1) (h2 : BracketShaped s2)
    (e1 : s1 ++ t1 = l) (e2 : s2 ++ t2 = l) (hle : s1.length ≤ s2.length) :
    s1 = s2 := by
  obtain ⟨m1, hm1, _⟩ := h1
  obtain ⟨m2, hm2, hb2⟩ := h2
  have htake : s1 = l.take s1.length := by
    rw [← e1, List.take_append_eq_append_take, List.take_length,
      Nat.sub_self, List.take_zero, List.append_nil]
  have htake2 : l.take s1.length = s2.take s1.length := by
    rw [← e2, List.take_append_eq_append_take,
      Nat.sub_eq_zero_of_le hle, List.take_zero, List.append_nil]
  have hs1 : s1 = s2.take s1.length := htake.trans htake2
  have hsplit : s2 = s1 ++ s2.drop s1.length := by
    conv_lhs => rw [← List.take_append_drop s1.length s2]
    rw [← hs1]
  rcases hrest : s2.drop s1.length with _ | ⟨x, xs⟩
  · rw [hrest, List.append_nil] at hsplit
    exact hsplit.symm
  · exfalso
    rw [hrest, hm1, hm2, List.cons_append] at hsplit
    have hmid : m2 ++ [']'] = (m1 ++ [']']) ++ x :: xs :=
      (List.cons_eq_cons.mp hsplit).2
    have hlen2 : m1.length + 1 ≤ m2.length := by
      have hl := congrArg List.length hmid
      simp at hl
      omega
    have hA : (m2 ++ [']']).take (m1.length + 1) = m2.take (m1.length + 1) := by
      rw [List.take_append_eq_append_take, Nat.sub_eq_zero_of_le hlen2,
        List.take_zero, List.append_nil]
    have hB : ((m1 ++ [']']) ++ x :: xs).take (m1.length + 1) = m1 ++ [']'] := by
      have hl1 : (m1 ++ [']']).length = m1.length + 1 := by simp
      rw [← hl1, List.take_left]
    have hm2take : m2.take (m1.length + 1) = m1 ++ [']'] := by
      rw [← hA, hmid, hB]
    have hmem : (']' : Char) ∈ m2 :=
      List.take_subset _ _ (by
        rw [hm2take]
        exact List.mem_append_right _ (List.mem_singleton.mpr rfl))
    exact (hb2 ']' hmem).2 rfl

theorem bracket_pre_eq {s1 s2 t1 t2 l : List Char}
    (h1 : BracketShaped s1) (h2 : BracketShaped s2)
    (e1 : s1 ++ t1 = l) (e2 : s2 ++ t2 = l) : s1 = s2 := by
  rcases le_total s1.length s2.length with hle | hle
  · exact bracket_pre_eq_of_le h1 h2 e1 e2 hle
  · exact (bracket_pre_eq_of_le h2 h1 e2 e1 hle).symm

theorem subScan_rw (t : List Char → Option (List Char × Nat))
    (span repl : List Char) (hspan : BracketShaped span)
    (hM : ∀ cs r k, t cs = some (r, k) →
      BracketShaped ('[' :: cs.take k) ∧ ('[' :: cs.take k = span → r = repl))
    (hS : ∀ b, (∃ x, t (span.tail ++ b) = some x) ∨ repl = span) :
    ∀ l a b, l = a ++ span ++ b → ∃ a2 b2, subScan t l = a2 ++ repl ++ b2 := by
  obtain ⟨smid, hsm, hsb⟩ := hspan
  have hspan' : BracketShaped span := ⟨smid, hsm, hsb⟩
  have htail : span.tail = smid ++ [']'] := by rw [hsm]; rfl
  suffices H : ∀ n l a b, l.length ≤ n → l = a ++ span ++ b →
      ∃ a2 b2, subScan t l = a2 ++ repl ++ b2 by
    intro l a b h
    exact H l.length l a b le_rfl h
  intro n
  induction n with
  | zero =>
    intro l a b hl h
    exfalso
    have hl0 : l = [] := List.length_eq_zero.mp (Nat.le_zero.mp hl)
    rw [hl0, hsm] at h
    have hlen := congrArg List.length h
    simp at hlen
    omega
  | succ n ih =>
    intro l a b hl h
    cases a with
    | nil =>
      have hcs : l = '[' :: (smid ++ ([']'] ++ b)) := by
        rw [h, hsm]
        simp
      rw [hcs, subScan_cons, if_pos rfl]
      cases ht : t (smid ++ ([']'] ++ b)) with
      | none =>
        rcases hS b with ⟨x, hx⟩ | hrepl
        · rw [htail, List.append_assoc] at hx
          rw [hx] at ht
          exact absurd ht (by simp)
        · refine ⟨[], subScan t b, ?_⟩
          have e1 : subScan t (smid ++ ([']'] ++ b)) =
              smid ++ subScan t (']' :: b) :=
            subScan_append_no_bracket t smid (']' :: b)
              (fun c hc => (hsb c hc).1)
          have e2 : subScan t (']' :: b) = ']' :: subScan t b := by
            rw [subScan_cons, if_neg (by decide)]
          show '[' :: subScan t (smid ++ ([']'] ++ b)) = [] ++ repl ++ subScan t b
          rw [e1, e2, hrepl, hsm]
          simp
      | some rk =>
        obtain ⟨r, k⟩ := rk
        obtain ⟨hshape, himp⟩ := hM _ r k ht
        have hpre1 : ('[' :: (smid ++ ([']'] ++ b)).take k) ++
            (smid ++ ([']'] ++ b)).drop k = '[' :: (smid ++ ([']'] ++ b)) := by
          rw [List.cons_append, List.take_append_drop]
        have hpre2 : span ++ b = '[' :: (smid ++ ([']'] ++ b)) := by
          rw [hsm]
          simp
        have heq : '[' :: (smid ++ ([']'] ++ b)).take k = span :=
          bracket_pre_eq hshape hspan' hpre1 hpre2
        refine ⟨[], subScan t ((smid ++ ([']'] ++ b)).drop k), ?_⟩
        show r ++ subScan t ((smid ++ ([']'] ++ b)).drop k) =
          [] ++ repl ++ subScan t ((smid ++ ([']'] ++ b)).drop k)
        rw [himp heq]
        simp
    | cons a0 a1 =>
      have hcs : l = a0 :: (a1 ++ span ++ b) := by rw [h]; rfl
      have hlen : (a1 ++ span ++ b).length ≤ n := by
        rw [hcs] at hl
        simpa using hl
      rw [hcs, subScan_cons]
      by_cases ha0 : a0 = '['
      · rw [if_pos ha0]
        cases ht : t (a1 ++ span ++ b) with
        | none =>
          obtain ⟨a2, b2, hout⟩ := ih (a1 ++ span ++ b) a1 b hlen rfl
          refine ⟨a0 :: a2, b2, ?_⟩
          show a0 :: subScan t (a1 ++ span ++ b) = (a0 :: a2) ++ repl ++ b2
          rw [hout]
          rfl
        | some rk =>
          obtain ⟨r, k⟩ := rk
          obtain ⟨hshape, _⟩ := hM _ r k ht
          by_cases hk : k ≤ a1.length
          · have hdrop : (a1 ++ span ++ b).drop k = a1.drop k ++ span ++ b := by
              rw [List.append_assoc, List.drop_append_eq_append_drop,
                Nat.sub_eq_zero_of_le hk, List.drop_zero, ← List.append_assoc]
            have hlen2 : ((a1 ++ span ++ b).drop k).length ≤ n := by
              rw [List.length_drop]
              omega
            obtain ⟨a2, b2, hout⟩ := ih _ (a1.drop k) b hlen2 hdrop
            refine ⟨r ++ a2, b2, ?_⟩
            show r ++ subScan t ((a1 ++ span ++ b).drop k) =
              (r ++ a2) ++ repl ++ b2
            rw [hout]
            simp
          · exfalso
            obtain ⟨mm, hmm, hbm⟩ := hshape
            have hmm' : (a1 ++ span ++ b).take k = mm ++ [']'] :=
              (List.cons_eq_cons.mp hmm).2
            have hbr : ('[' : Char) ∈ (a1 ++ span ++ b).take k := by
              rw [List.append_assoc, List.take_append_eq_append_take]
              have ha1 : a1.take k = a1 :=
                List.take_of_length_le (le_of_not_le hk)
              obtain ⟨j, hj⟩ : ∃ j, k - a1.length = j + 1 :=
                ⟨k - a1.length - 1, by omega⟩
              rw [ha1, hj, hsm]
              refine List.mem_append_right _ ?_
              rw [List.cons_append]
              exact List.mem_cons_self _ _
            rw [hmm'] at hbr
            rcases List.mem_append.mp hbr with hc | hc
            · exact (hbm '[' hc).1 rfl
            · exact absurd (List.mem_singleton.mp hc) (by decide)
      · rw [if_neg ha0]
        obtain ⟨a2, b2, hout⟩ := ih (a1 ++ span ++ b) a1 b hlen rfl
        refine ⟨a0 :: a2, b2, ?_⟩
        show a0 :: subScan t (a1 ++ span ++ b) = (a0 :: a2) ++ repl ++ b2
        rw [hout]
        rfl

theorem digit_ne_brackets {c : Char} (h : c.isDigit = true) :
    c ≠ '[' ∧ c ≠ ']' := by
  constructor <;> rintro rfl <;> exact absurd h (by decide)

theorem docTry_inv (reg : Registry) (cs r : List Char) (k : Nat)
    (h : docTryAfter reg cs = some (r, k)) :
    ∃ d1 d2 d3 d4 rest,
      d1.isDigit = true ∧ d2.isDigit = true ∧ d3.isDigit = true ∧
      d4.isDigit = true ∧
      cs = [d1, d2, '-', d3, d4, ']'] ++ rest ∧ k = 6 ∧
      (regLookup reg (docIdOf d1 d2 d3 d4) = none →
        r = docSpanOf d1 d2 d3 d4) := by
  match cs with
  | [] => simp [docTryAfter] at h
  | [c1] => simp [docTryAfter] at h
  | [c1, c2] => simp [docTryAfter] at h
  | [c1, c2, c3] => simp [docTryAfter] at h
  | [c1, c2, c3, c4] => simp [docTryAfter] at h
  | [c1, c2, c3, c4, c5] => simp [docTryAfter] at h
  | c1 :: c2 :: c3 :: c4 :: c5 :: c6 :: rest =>
    simp only [docTryAfter] at h
    split at h
    case isFalse => simp at h
    case isTrue hcond =>
      simp only [Bool.and_eq_true, decide_eq_true_eq] at hcond
      obtain ⟨⟨⟨⟨⟨h1, h2⟩, h3⟩, h4⟩, h5⟩, h6⟩ := hcond
      subst h3 h6
      obtain ⟨hr, hk⟩ := Prod.mk.injEq .. ▸ Option.some.injEq .. ▸ h
      refine ⟨c1, c2, c4, c5, rest, h1, h2, h4, h5, rfl, hk.symm, ?_⟩
      intro hnone
      simp only [docIdOf] at hnone
      rw [← hr, hnone]
      rfl

theorem sectionTry_inv (reg : Registry) (cs r : List Char) (k : Nat)
    (h : sectionTryAfter reg cs = some (r, k)) :
    ∃ d1 d2 d3 d4 r1 r2 rest,
      d1.isDigit = true ∧ d2.isDigit = true ∧ d3.isDigit = true ∧
      d4.isDigit = true ∧ r1 ≠ [] ∧ (∀ c ∈ r1, c.isDigit = true) ∧
      r2 ≠ [] ∧ (∀ c ∈ r2, c.isDigit = true) ∧
      cs = (d1 :: d2 :: '-' :: d3 :: d4 :: ' ' :: '§' ::
        (r1 ++ '.' :: (r2 ++ [']']))) ++ rest ∧
      k = 9 + r1.length + r2.length ∧
      (regLookup reg (docIdOf d1 d2 d3 d4) = none →
        r = sectionSpanOf d1 d2 d3 d4 r1 r2) := by
  match cs with
  | [] => simp [sectionTryAfter] at h
  | [c1] => simp [sectionTryAfter] at h
  | [c1, c2] => simp [sectionTryAfter] at h
  | [c1, c2, c3] => simp [sectionTryAfter] at h
  | [c1, c2, c3, c4] => simp [sectionTryAfter] at h
  | [c1, c2, c3, c4, c5] => simp [sectionTryAfter] at h
  | [c1, c2, c3, c4, c5, c6] => simp [sectionTryAfter] at h
  | c1 :: c2 :: c3 :: c4 :: c5 :: c6 :: c7 :: rest0 =>
    simp only [sectionTryAfter] at h
    split at h
    case isFalse => simp at h
    case isTrue hcond =>
      simp only [Bool.and_eq_true, decide_eq_true_eq] at hcond
      obtain ⟨⟨⟨⟨⟨⟨h1, h2⟩, h3⟩, h4⟩, h5⟩, h6⟩, h7⟩ := hcond
      subst h3 h6 h7
      split at h
      case h_2 => simp at h
      case h_1 rest2 heq1 =>
        split at h
        case h_2 => simp at h
        case h_1 rest3 heq2 =>
          split at h
          case isTrue => simp at h
          case isFalse hne =>
            rw [Bool.or_eq_true, not_or] at hne
            obtain ⟨hne1, hne2⟩ := hne
            set r1 := rest0.takeWhile Char.isDigit with hR1
            set r2 := rest2.takeWhile Char.isDigit with hR2
            have hr1ne : r1 ≠ [] := by
              intro hc
              rw [hc] at hne1
              exact hne1 rfl
            have hr2ne : r2 ≠ [] := by
              intro hc
              rw [hc] at hne2
              exact hne2 rfl
            obtain ⟨hr, hk⟩ := Prod.mk.injEq .. ▸ Option.some.injEq .. ▸ h
            have e0 : rest0 = r1 ++ ('.' :: rest2) := by
              conv_lhs => rw [← List.takeWhile_append_dropWhile
                Char.isDigit rest0]
              rw [heq1, ← hR1]
            have e2 : rest2 = r2 ++ (']' :: rest3) := by
              conv_lhs => rw [← List.takeWhile_append_dropWhile
                Char.isDigit rest2]
              rw [heq2, ← hR2]
            have htailEq : rest0 = (r1 ++ '.' :: (r2 ++ [']'])) ++ rest3 := by
              rw [e0, e2]
              simp
            refine ⟨c1, c2, c4, c5, r1, r2, rest3, h1, h2, h4, h5,
              hr1ne, fun c hc => List.mem_takeWhile_imp (hR1 ▸ hc),
              hr2ne, fun c hc => List.mem_takeWhile_imp (hR2 ▸ hc),
              ?_, by omega, ?_⟩
            · rw [htailEq]
              simp
            · intro hnone
              simp only [docIdOf] at hnone
              rw [← hr, hnone]
              simp [sectionSpanOf]

theorem takeWhile_all_app (p : Char → Bool) (rl : List Char) (x : Char)
    (b : List Char) (hr : ∀ c ∈ rl, p c = true) (hx : p x = false) :
    (rl ++ x :: b).takeWhile p = rl ∧ (rl ++ x :: b).dropWhile p = x :: b := by
  induction rl with
  | nil => simp [List.takeWhile_cons, List.dropWhile_cons, hx]
  | cons c rl ih =>
    have hc : p c = true := hr c (List.mem_cons_self c rl)
    obtain ⟨ih1, ih2⟩ := ih (fun d hd => hr d (List.mem_cons_of_mem c hd))
    constructor
    · rw [List.cons_append, List.takeWhile_cons, hc]
      simp [ih1]
    · rw [List.cons_append, List.dropWhile_cons, hc]
      simpa using ih2

theorem decisionTry_inv (reg : Registry) (cs r : List Char) (k : Nat)
    (h : decisionTryAfter reg cs = some (r, k)) :
    ∃ e1 e2 e3 e4 e5 e6 e7 e8 rr rest,
      e1.isDigit = true ∧ e2.isDigit = true ∧ e3.isDigit = true ∧
      e4.isDigit = true ∧ e5.isDigit = true ∧ e6.isDigit = true ∧
      e7.isDigit = true ∧ e8.isDigit = true ∧
      rr ≠ [] ∧ (∀ c ∈ rr, c.isDigit = true) ∧
      cs = (decisionIdOf [e1, e2, e3, e4, e5, e6, e7, e8] rr ++ [']']) ++ rest ∧
      k = 19 + rr.length ∧
      r = decisionRepl reg (decisionIdOf [e1, e2, e3, e4, e5, e6, e7, e8] rr) := by
  rw [decisionTryAfter.eq_def] at h
  split at h
  case h_2 => simp at h
  case h_1 e1 e2 e3 e4 e5 e6 e7 e8 h9 rest0 =>
    split at h
    case isFalse => simp at h
    case isTrue hcond =>
      simp only [Bool.and_eq_true, decide_eq_true_eq] at hcond
      obtain ⟨⟨⟨⟨⟨⟨⟨⟨h1, h2⟩, h3⟩, h4⟩, h5⟩, h6⟩, h7⟩, h8⟩, h9'⟩ := hcond
      subst h9'
      split at h
      case h_2 => simp at h
      case h_1 rest3 heq1 =>
        simp only [] at h
        split at h
        case isTrue => simp at h
        case isFalse hne =>
          set rr := rest0.takeWhile Char.isDigit with hRR
          have hrrne : rr ≠ [] := by
            intro hc
            rw [hc] at hne
            exact hne rfl
          obtain ⟨hr, hk⟩ := Prod.mk.injEq .. ▸ Option.some.injEq .. ▸ h
          have e0 : rest0 = rr ++ (']' :: rest3) := by
            conv_lhs => rw [← List.takeWhile_append_dropWhile
              Char.isDigit rest0]
            rw [heq1, ← hRR]
          refine ⟨e1, e2, e3, e4, e5, e6, e7, e8, rr, rest3,
            h1, h2, h3, h4, h5, h6, h7, h8, hrrne,
            fun c hc => List.mem_takeWhile_imp (hRR ▸ hc), ?_, by omega, ?_⟩
          · rw [e0]
            simp [decisionIdOf]
          · rw [← hr]
            rfl

theorem decisionTry_total (reg : Registry)
    (e1 e2 e3 e4 e5 e6 e7 e8 : Char) (rr b : List Char)
    (hrrne : rr ≠ []) (hrrd : ∀ c ∈ rr, c.isDigit = true)
    (h1 : e1.isDigit = true) (h2 : e2.isDigit = true) (h3 : e3.isDigit = true)
    (h4 : e4.isDigit = true) (h5 : e5.isDigit = true) (h6 : e6.isDigit = true)
    (h7 : e7.isDigit = true) (h8 : e8.isDigit = true) :
    decisionTryAfter reg
        ((decisionIdOf [e1, e2, e3, e4, e5, e6, e7, e8] rr ++ [']']) ++ b) =
      some (decisionRepl reg (decisionIdOf [e1, e2, e3, e4, e5, e6, e7, e8] rr),
        19 + rr.length) := by
  have hshape : (decisionIdOf [e1, e2, e3, e4, e5, e6, e7, e8] rr ++ [']']) ++ b
      = 'D' :: 'E' :: 'C' :: 'I' :: 'S' :: 'I' :: 'O' :: 'N' :: '-' ::
        e1 :: e2 :: e3 :: e4 :: e5 :: e6 :: e7 :: e8 :: '-' ::
        (rr ++ ']' :: b) := by
    simp [decisionIdOf]
  rw [hshape, decisionTryAfter.eq_def]
  obtain ⟨htw, hdw⟩ := takeWhile_all_app Char.isDigit rr ']' b hrrd (by decide)
  simp only [htw, hdw]
  rw [if_pos (by simp [h1, h2, h3, h4, h5, h6, h7, h8]),
    if_neg (by simpa using hrrne)]
  have : 18 + rr.length + 1 = 19 + rr.length := by omega
  rw [this]
  rfl

theorem docTry_shape (reg : Registry) (cs r : List Char) (k : Nat)
    (h : docTryAfter reg cs = some (r, k)) :
    BracketShaped ('[' :: cs.take k) ∧
    ∃ d1 d2 d3 d4, d1.isDigit = true ∧ d2.isDigit = true ∧
      d3.isDigit = true ∧ d4.isDigit = true ∧
      cs.take k = [d1, d2, '-', d3, d4, ']'] ∧
      (regLookup reg (docIdOf d1 d2 d3 d4) = none →
        r = docSpanOf d1 d2 d3 d4) := by
  obtain ⟨d1, d2, d3, d4, rest, h1, h2, h3, h4, hcs, hk, hrr⟩ :=
    docTry_inv reg cs r k h
  have htake : cs.take k = [d1, d2, '-', d3, d4, ']'] := by
    rw [hcs, hk]
    have hlen : ([d1, d2, '-', d3, d4, ']'] : List Char).length = 6 := rfl
    rw [← hlen, List.take_left]
  refine ⟨⟨[d1, d2, '-', d3, d4], by rw [htake]; rfl, ?_⟩,
    d1, d2, d3, d4, h1, h2, h3, h4, htake, hrr⟩
  intro c hc
  simp only [List.mem_cons, List.not_mem_nil, or_false] at hc
  rcases hc with rfl | rfl | rfl | rfl | rfl
  · exact digit_ne_brackets h1
  · exact digit_ne_brackets h2
  · exact ⟨by decide, by decide⟩
  · exact digit_ne_brackets h3
  · exact digit_ne_brackets h4

theorem sectionTry_shape (reg : Registry) (cs r : List Char) (k : Nat)
    (h : sectionTryAfter reg cs = some (r, k)) :
    BracketShaped ('[' :: cs.take k) ∧
    ∃ d1 d2 d3 d4 r1 r2, d1.isDigit = true ∧ d2.isDigit = true ∧
      d3.isDigit = true ∧ d4.isDigit = true ∧
      r1 ≠ [] ∧ r2 ≠ [] ∧
      cs.take k = d1 :: d2 :: '-' :: d3 :: d4 :: ' ' :: '§' ::
        (r1 ++ '.' :: (r2 ++ [']'])) ∧
      (regLookup reg (docIdOf d1 d2 d3 d4) = none →
        r = sectionSpanOf d1 d2 d3 d4 r1 r2) := by
  obtain ⟨d1, d2, d3, d4, r1, r2, rest, h1, h2, h3, h4, hr1, hr1d, hr2, hr2d,
    hcs, hk, hrr⟩ := sectionTry_inv reg cs r k h
  have htake : cs.take k = d1 :: d2 :: '-' :: d3 :: d4 :: ' ' :: '§' ::
      (r1 ++ '.' :: (r2 ++ [']'])) := by
    rw [hcs, hk]
    have hlen : (d1 :: d2 :: '-' :: d3 :: d4 :: ' ' :: '§' ::
        (r1 ++ '.' :: (r2 ++ [']'])) : List Char).length =
        9 + r1.length + r2.length := by
      simp
      omega
    rw [← hlen, List.take_left]
  refine ⟨⟨d1 :: d2 :: '-' :: d3 :: d4 :: ' ' :: '§' :: (r1 ++ '.' :: r2),
    by rw [htake]; simp, ?_⟩,
    d1, d2, d3, d4, r1, r2, h1, h2, h3, h4, hr1, hr2, htake, hrr⟩
  intro c hc
  simp only [List.mem_cons, List.mem_append] at hc
  rcases hc with rfl | rfl | rfl | rfl | rfl | rfl | rfl | hc | rfl | hc
  · exact digit_ne_brackets h1
  · exact digit_ne_brackets h2
  · exact ⟨by decide, by decide⟩
  · exact digit_ne_brackets h3
  · exact digit_ne_brackets h4
  · exact ⟨by decide, by decide⟩
  · exact ⟨by decide, by decide⟩
  · exact digit_ne_brackets (hr1d c hc)
  · exact ⟨by decide, by decide⟩
  · exact digit_ne_brackets (hr2d c hc)

theorem decisionTry_shape (reg : Registry) (cs r : List Char) (k : Nat)
    (h : decisionTryAfter reg cs = some (r, k)) :
    BracketShaped ('[' :: cs.take k) ∧
    ∃ e1 e2 e3 e4 e5 e6 e7 e8 rr,
      e1.isDigit = true ∧ e2.isDigit = true ∧ e3.isDigit = true ∧
      e4.isDigit = true ∧ e5.isDigit = true ∧ e6.isDigit = true ∧
      e7.isDigit = true ∧ e8.isDigit = true ∧ rr ≠ [] ∧
      cs.take k = decisionIdOf [e1, e2, e3, e4, e5, e6, e7, e8] rr ++ [']'] ∧
      r = decisionRepl reg (decisionIdOf [e1, e2, e3, e4, e5, e6, e7, e8] rr) := by
  obtain ⟨e1, e2, e3, e4, e5, e6, e7, e8, rr, rest, h1, h2, h3, h4, h5, h6,
    h7, h8, hrr, hrrd, hcs, hk, hrepl⟩ := decisionTry_inv reg cs r k h
  have htake : cs.take k =
      decisionIdOf [e1, e2, e3, e4, e5, e6, e7, e8] rr ++ [']'] := by
    rw [hcs, hk]
    have hlen : (decisionIdOf [e1, e2, e3, e4, e5, e6, e7, e8] rr ++ [']']
        : List Char).length = 19 + rr.length := by
      simp [decisionIdOf]
      omega
    rw [← hlen, List.take_left]
  refine ⟨⟨decisionIdOf [e1, e2, e3, e4, e5, e6, e7, e8] rr,
    by rw [htake]; simp, ?_⟩,
    e1, e2, e3, e4, e5, e6, e7, e8, rr, h1, h2, h3, h4, h5, h6, h7, h8,
    hrr, htake, hrepl⟩
  intro c hc
  simp only [decisionIdOf, List.mem_append, List.mem_cons,
    List.not_mem_nil, or_false] at hc
  rcases hc with ((rfl | rfl | rfl | rfl | rfl | rfl | rfl | rfl | rfl) |
      (rfl | rfl | rfl | rfl | rfl | rfl | rfl | rfl)) | (rfl | hc)
  all_goals first
    | exact ⟨by decide, by decide⟩
    | exact digit_ne_brackets h1
    | exact digit_ne_brackets h2
    | exact digit_ne_brackets h3
    | exact digit_ne_brackets h4
    | exact digit_ne_brackets h5
    | exact digit_ne_brackets h6
    | exact digit_ne_brackets h7
    | exact digit_ne_brackets h8
    | exact digit_ne_brackets (hrrd c hc)

theorem docSpan_bracketShaped (d1 d2 d3 d4 : Char)
    (h1 : d1.isDigit = true) (h2 : d2.isDigit = true)
    (h3 : d3.isDigit = true) (h4 : d4.isDigit = true) :
    BracketShaped (docSpanOf d1 d2 d3 d4) := by
  refine ⟨[d1, d2, '-', d3, d4], rfl, ?_⟩
  intro c hc
  simp only [List.mem_cons, List.not_mem_nil, or_false] at hc
  rcases hc with rfl | rfl | rfl | rfl | rfl
  · exact digit_ne_brackets h1
  · exact digit_ne_brackets h2
  · exact ⟨by decide, by decide⟩
  · exact digit_ne_brackets h3
  · exact digit_ne_brackets h4

theorem sectionSpan_bracketShaped (d1 d2 d3 d4 : Char) (r1 r2 : List Char)
    (h1 : d1.isDigit = true) (h2 : d2.isDigit = true)
    (h3 : d3.isDigit = true) (h4 : d4.isDigit = true)
    (hr1d : ∀ c ∈ r1, c.isDigit = true) (hr2d : ∀ c ∈ r2, c.isDigit = true) :
    BracketShaped (sectionSpanOf d1 d2 d3 d4 r1 r2) := by
  refine ⟨d1 :: d2 :: '-' :: d3 :: d4 :: ' ' :: '§' :: (r1 ++ '.' :: r2),
    by simp [sectionSpanOf], ?_⟩
  intro c hc
  simp only [List.mem_cons, List.mem_append] at hc
  rcases hc with rfl | rfl | rfl | rfl | rfl | rfl | rfl | hc | rfl | hc
  · exact digit_ne_brackets h1
  · exact digit_ne_brackets h2
  · exact ⟨by decide, by decide⟩
  · exact digit_ne_brackets h3
  · exact digit_ne_brackets h4
  · exact ⟨by decide, by decide⟩
  · exact ⟨by decide, by decide⟩
  · exact digit_ne_brackets (hr1d c hc)
  · exact ⟨by decide, by decide⟩
  · exact digit_ne_brackets (hr2d c hc)

theorem decisionSpan_bracketShaped (e1 e2 e3 e4 e5 e6 e7 e8 : Char)
    (rr : List Char)
    (h1 : e1.isDigit = true) (h2 : e2.isDigit = true) (h3 : e3.isDigit = true)
    (h4 : e4.isDigit = true) (h5 : e5.isDigit = true) (h6 : e6.isDigit = true)
    (h7 : e7.isDigit = true) (h8 : e8.isDigit = true)
    (hrrd : ∀ c ∈ rr, c.isDigit = true) :
    BracketShaped (decisionSpanOf [e1, e2, e3, e4, e5, e6, e7, e8] rr) := by
  refine ⟨decisionIdOf [e1, e2, e3, e4, e5, e6, e7, e8] rr,
    by simp [decisionSpanOf], ?_⟩
  intro c hc
  simp only [decisionIdOf, List.mem_append, List.mem_cons,
    List.not_mem_nil, or_false] at hc
  rcases hc with ((rfl | rfl | rfl | rfl | rfl | rfl | rfl | rfl | rfl) |
      (rfl | rfl | rfl | rfl | rfl | rfl | rfl | rfl)) | (rfl | hc)
  all_goals first
    | exact ⟨by decide, by decide⟩
    | exact digit_ne_brackets h1
    | exact digit_ne_brackets h2
    | exact digit_ne_brackets h3
    | exact digit_ne_brackets h4
    | exact digit_ne_brackets h5
    | exact digit_ne_brackets h6
    | exact digit_ne_brackets h7
    | exact digit_ne_brackets h8
    | exact digit_ne_brackets (hrrd c hc)

theorem hM_doc_docspan (reg : Registry) (d1 d2 d3 d4 : Char)
    (hnone : regLookup reg (docIdOf d1 d2 d3 d4) = none) :
    ∀ cs r k, docTryAfter reg cs = some (r, k) →
      BracketShaped ('[' :: cs.take k) ∧
      ('[' :: cs.take k = docSpanOf d1 d2 d3 d4 →
        r = docSpanOf d1 d2 d3 d4) := by
  intro cs r k hmt
  obtain ⟨hsh, e1, e2, e3, e4, _, _, _, _, htake, hrr⟩ :=
    docTry_shape reg cs r k hmt
  refine ⟨hsh, ?_⟩
  intro heq
  rw [htake] at heq
  simp only [docSpanOf, List.cons.injEq, and_true, true_and] at heq
  obtain ⟨rfl, rfl, rfl, rfl⟩ := heq
  exact hrr hnone

theorem hM_section_docspan (reg : Registry) (d1 d2 d3 d4 : Char) :
    ∀ cs r k, sectionTryAfter reg cs = some (r, k) →
      BracketShaped ('[' :: cs.take k) ∧
      ('[' :: cs.take k = docSpanOf d1 d2 d3 d4 →
        r = docSpanOf d1 d2 d3 d4) := by
  intro cs r k hmt
  obtain ⟨hsh, e1, e2, e3, e4, r1, r2, _, _, _, _, _, _, htake, _⟩ :=
    sectionTry_shape reg cs r k hmt
  refine ⟨hsh, ?_⟩
  intro heq
  rw [htake] at heq
  simp only [docSpanOf, List.cons.injEq] at heq
  obtain ⟨-, -, -, -, -, -, hbad⟩ := heq
  exact absurd hbad.1 (by decide)

theorem hM_decision_docspan (reg : Registry) (d1 d2 d3 d4 : Char) :
    ∀ cs r k, decisionTryAfter reg cs = some (r, k) →
      BracketShaped ('[' :: cs.take k) ∧
      ('[' :: cs.take k = docSpanOf d1 d2 d3 d4 →
        r = docSpanOf d1 d2 d3 d4) := by
  intro cs r k hmt
  obtain ⟨hsh, e1, e2, e3, e4, e5, e6, e7, e8, rr, he1, he2, he3, he4, he5,
    he6, he7, he8, hrrne, htake, hrepl⟩ := decisionTry_shape reg cs r k hmt
  refine ⟨hsh, ?_⟩
  intro heq
  rw [htake] at heq
  have h3 := congrArg (fun l => l.getD 3 ' ') heq
  simp [decisionIdOf, docSpanOf, List.getD] at h3

theorem hM_doc_sectionspan (reg : Registry) (d1 d2 d3 d4 : Char)
    (r1 r2 : List Char) :
    ∀ cs r k, docTryAfter reg cs = some (r, k) →
      BracketShaped ('[' :: cs.take k) ∧
      ('[' :: cs.take k = sectionSpanOf d1 d2 d3 d4 r1 r2 →
        r = sectionSpanOf d1 d2 d3 d4 r1 r2) := by
  intro cs r k hmt
  obtain ⟨hsh, e1, e2, e3, e4, _, _, _, _, htake, _⟩ :=
    docTry_shape reg cs r k hmt
  refine ⟨hsh, ?_⟩
  intro heq
  rw [htake] at heq
  have h6 := congrArg (fun l => l.getD 6 'x') heq
  simp [sectionSpanOf, List.getD] at h6

theorem hM_section_sectionspan (reg : Registry) (d1 d2 d3 d4 : Char)
    (r1 r2 : List Char)
    (hnone : regLookup reg (docIdOf d1 d2 d3 d4) = none) :
    ∀ cs r k, sectionTryAfter reg cs = some (r, k) →
      BracketShaped ('[' :: cs.take k) ∧
      ('[' :: cs.take k = sectionSpanOf d1 d2 d3 d4 r1 r2 →
        r = sectionSpanOf d1 d2 d3 d4 r1 r2) := by
  intro cs r k hmt
  obtain ⟨hsh, e1, e2, e3, e4, s1, s2, _, _, _, _, _, _, htake, hrr⟩ :=
    sectionTry_shape reg cs r k hmt
  refine ⟨hsh, ?_⟩
  intro heq
  rw [htake] at heq
  have hids : e1 = d1 ∧ e2 = d2 ∧ e3 = d3 ∧ e4 = d4 := by
    have g1 := congrArg (fun l => l.getD 1 'x') heq
    have g2 := congrArg (fun l => l.getD 2 'x') heq
    have g3 := congrArg (fun l => l.getD 4 'x') heq
    have g4 := congrArg (fun l => l.getD 5 'x') heq
    simp [sectionSpanOf, List.getD] at g1 g2 g3 g4
    exact ⟨g1, g2, g3, g4⟩
  obtain ⟨rfl, rfl, rfl, rfl⟩ := hids
  have hr := hrr hnone
  have hspanEq : sectionSpanOf e1 e2 e3 e4 s1 s2 =
      sectionSpanOf e1 e2 e3 e4 r1 r2 := heq
  rw [hr, hspanEq]

theorem hM_decision_sectionspan (reg : Registry) (d1 d2 d3 d4 : Char)
    (r1 r2 : List Char) :
    ∀ cs r k, decisionTryAfter reg cs = some (r, k) →
      BracketShaped ('[' :: cs.take k) ∧
      ('[' :: cs.take k = sectionSpanOf d1 d2 d3 d4 r1 r2 →
        r = sectionSpanOf d1 d2 d3 d4 r1 r2) := by
  intro cs r k hmt
  obtain ⟨hsh, e1, e2, e3, e4, e5, e6, e7, e8, rr, he1, he2, he3, he4, he5,
    he6, he7, he8, hrrne, htake, hrepl⟩ := decisionTry_shape reg cs r k hmt
  refine ⟨hsh, ?_⟩
  intro heq
  rw [htake] at heq
  have h3 := congrArg (fun l => l.getD 3 'x') heq
  simp [decisionIdOf, sectionSpanOf, List.getD] at h3

theorem hM_doc_decisionspan (reg : Registry) (e1 e2 e3 e4 e5 e6 e7 e8 : Char)
    (rr rep : List Char) :
    ∀ cs r k, docTryAfter reg cs = some (r, k) →
      BracketShaped ('[' :: cs.take k) ∧
      ('[' :: cs.take k = decisionSpanOf [e1, e2, e3, e4, e5, e6, e7, e8] rr →
        r = rep) := by
  intro cs r k hmt
  obtain ⟨hsh, f1, f2, f3, f4, hf1, _, _, _, htake, _⟩ :=
    docTry_shape reg cs r k hmt
  refine ⟨hsh, ?_⟩
  intro heq
  rw [htake] at heq
  have h1 := congrArg (fun l => l.getD 1 'x') heq
  simp [decisionSpanOf, decisionIdOf, List.getD] at h1
  rw [h1] at hf1
  exact absurd hf1 (by decide)

theorem hM_section_decisionspan (reg : Registry)
    (e1 e2 e3 e4 e5 e6 e7 e8 : Char) (rr rep : List Char) :
    ∀ cs r k, sectionTryAfter reg cs = some (r, k) →
      BracketShaped ('[' :: cs.take k) ∧
      ('[' :: cs.take k = decisionSpanOf [e1, e2, e3, e4, e5, e6, e7, e8] rr →
        r = rep) := by
  intro cs r k hmt
  obtain ⟨hsh, f1, f2, f3, f4, s1, s2, hf1, _, _, _, _, _, htake, _⟩ :=
    sectionTry_shape reg cs r k hmt
  refine ⟨hsh, ?_⟩
  intro heq
  rw [htake] at heq
  have h1 := congrArg (fun l => l.getD 1 'x') heq
  simp [decisionSpanOf, decisionIdOf, List.getD] at h1
  rw [h1] at hf1
  exact absurd hf1 (by decide)

theorem hM_decision_decisionspan (reg : Registry)
    (e1 e2 e3 e4 e5 e6 e7 e8 : Char) (rr : List Char) :
    ∀ cs r k, decisionTryAfter reg cs = some (r, k) →
      BracketShaped ('[' :: cs.take k) ∧
      ('[' :: cs.take k = decisionSpanOf [e1, e2, e3, e4, e5, e6, e7, e8] rr →
        r = decisionRepl reg (decisionIdOf [e1, e2, e3, e4, e5, e6, e7, e8] rr)) := by
  intro cs r k hmt
  obtain ⟨hsh, f1, f2, f3, f4, f5, f6, f7, f8, ss, hf1, hf2, hf3, hf4, hf5,
    hf6, hf7, hf8, hssne, htake, hrepl⟩ := decisionTry_shape reg cs r k hmt
  refine ⟨hsh, ?_⟩
  intro heq
  rw [htake] at heq
  have hid : decisionIdOf [f1, f2, f3, f4, f5, f6, f7, f8] ss =
      decisionIdOf [e1, e2, e3, e4, e5, e6, e7, e8] rr := by
    have h2 : decisionIdOf [f1, f2, f3, f4, f5, f6, f7, f8] ss ++ [']'] =
        decisionIdOf [e1, e2, e3, e4, e5, e6, e7, e8] rr ++ [']'] := by
      have := (List.cons_eq_cons.mp heq).2
      simpa [decisionSpanOf] using this
    exact List.append_left_injective [']'] h2
  rw [hrepl, hid]

/-! ## Claims about the Cross-Reference Resolver -/

/-- C1 counterexample: `ProcessCrossReferences` is not idempotent on
already-resolved text. Resolving `[10-20]` against a registry containing
`10-20` with url `u` yields `[10-20](u)`, and a second run matches the
bracket label again, producing `[10-20](u)(u)` — the claim that the bracket
patterns no longer match resolved text is false. -/
theorem c1_counterexample :
    ProcessCrossReferences "[10-20]" regZero = "[10-20](u)" ∧
    ProcessCrossReferences "[10-20](u)" regZero = "[10-20](u)(u)" ∧
    ProcessCrossReferences (ProcessCrossReferences "[10-20]" regZero) regZero
      ≠ ProcessCrossReferences "[10-20]" regZero := by
  refine ⟨by decide, by decide, ?_⟩
  decide

/-- C1 (amended): the resolver is not idempotent on resolved text, because
the `[dd-dd]` label of a generated link still matches the document pattern
and is resolved again (second conjunct). A second run leaves text unchanged
exactly when no bracket pattern occurrence is rewritten; in particular any
text containing no `[` at all is a fixed point of the resolver, for every
registry (first conjunct). -/
theorem c1_theorem :
    (∀ (reg : Registry) (t : String), (∀ c ∈ t.data, c ≠ '[') →
      ProcessCrossReferences t reg = t) ∧
    ProcessCrossReferences "[10-20](u)" regZero = "[10-20](u)(u)" := by
  constructor
  · intro reg t ht
    show (⟨subScan (decisionTryAfter reg) (subScan (sectionTryAfter reg)
      (subScan (docTryAfter reg) t.data))⟩ : String) = t
    rw [subScan_no_bracket (docTryAfter reg) t.data ht,
      subScan_no_bracket (sectionTryAfter reg) t.data ht,
      subScan_no_bracket (decisionTryAfter reg) t.data ht]
  · decide

/-- C1 witness: a concrete bracket-free text is a fixed point. -/
theorem c1_witness : ProcessCrossReferences "abc" regZero = "abc" :=
  c1_theorem.1 regZero "abc" (by decide)

/-- C2: an unresolvable reference is left byte-for-byte verbatim. For every
registry and text, a document-reference span `[dd-dd]` (first conjunct) or
section-reference span `[dd-dd §r1.r2]` (second conjunct) occurring in the
text whose identifier is not a key of the registry reappears verbatim in
the output of `ProcessCrossReferences` — never dropped, and the function is
total, so never an error. -/
theorem c2_theorem (reg : Registry) (d1 d2 d3 d4 : Char)
    (r1 r2 a b : List Char) (content : String)
    (h1 : d1.isDigit = true) (h2 : d2.isDigit = true)
    (h3 : d3.isDigit = true) (h4 : d4.isDigit = true)
    (hnone : regLookup reg (docIdOf d1 d2 d3 d4) = none) :
    (content.data = a ++ docSpanOf d1 d2 d3 d4 ++ b →
      ∃ a2 b2, (ProcessCrossReferences content reg).data =
        a2 ++ docSpanOf d1 d2 d3 d4 ++ b2) ∧
    ((∀ c ∈ r1, c.isDigit = true) → (∀ c ∈ r2, c.isDigit = true) →
      content.data = a ++ sectionSpanOf d1 d2 d3 d4 r1 r2 ++ b →
      ∃ a2 b2, (ProcessCrossReferences content reg).data =
        a2 ++ sectionSpanOf d1 d2 d3 d4 r1 r2 ++ b2) := by
  constructor
  · intro hcont
    have hspan := docSpan_bracketShaped d1 d2 d3 d4 h1 h2 h3 h4
    obtain ⟨a1, b1, hp1⟩ := subScan_rw (docTryAfter reg) _ _ hspan
      (hM_doc_docspan reg d1 d2 d3 d4 hnone) (fun _ => Or.inr rfl)
      content.data a b hcont
    obtain ⟨a2, b2, hp2⟩ := subScan_rw (sectionTryAfter reg) _ _ hspan
      (hM_section_docspan reg d1 d2 d3 d4) (fun _ => Or.inr rfl) _ a1 b1 hp1
    obtain ⟨a3, b3, hp3⟩ := subScan_rw (decisionTryAfter reg) _ _ hspan
      (hM_decision_docspan reg d1 d2 d3 d4) (fun _ => Or.inr rfl) _ a2 b2 hp2
    exact ⟨a3, b3, hp3⟩
  · intro hr1d hr2d hcont
    have hspan := sectionSpan_bracketShaped d1 d2 d3 d4 r1 r2 h1 h2 h3 h4
      hr1d hr2d
    obtain ⟨a1, b1, hp1⟩ := subScan_rw (docTryAfter reg) _ _ hspan
      (hM_doc_sectionspan reg d1 d2 d3 d4 r1 r2) (fun _ => Or.inr rfl)
      content.data a b hcont
    obtain ⟨a2, b2, hp2⟩ := subScan_rw (sectionTryAfter reg) _ _ hspan
      (hM_section_sectionspan reg d1 d2 d3 d4 r1 r2 hnone)
      (fun _ => Or.inr rfl) _ a1 b1 hp1
    obtain ⟨a3, b3, hp3⟩ := subScan_rw (decisionTryAfter reg) _ _ hspan
      (hM_decision_sectionspan reg d1 d2 d3 d4 r1 r2)
      (fun _ => Or.inr rfl) _ a2 b2 hp2
    exact ⟨a3, b3, hp3⟩

/-- C2 witness: the unresolved spans `[77-88]` and `[77-88 §1.2]` survive a
run against a registry that does not know `77-88`. -/
theorem c2_witness :
    (∃ a2 b2, (ProcessCrossReferences "x [77-88] y" regZero).data =
      a2 ++ docSpanOf '7' '7' '8' '8' ++ b2) ∧
    (∃ a2 b2, (ProcessCrossReferences "x [77-88 §1.2] y" regZero).data =
      a2 ++ sectionSpanOf '7' '7' '8' '8' ['1'] ['2'] ++ b2) :=
  ⟨(c2_theorem regZero '7' '7' '8' '8' ['1'] ['2'] "x ".data " y".data
      "x [77-88] y" (by decide) (by decide) (by decide) (by decide)
      (by decide)).1 (by decide),
   (c2_theorem regZero '7' '7' '8' '8' ['1'] ['2'] "x ".data " y".data
      "x [77-88 §1.2] y" (by decide) (by decide) (by decide) (by decide)
      (by decide)).2 (by decide) (by decide) (by decide)⟩

/-- C4: every decision reference `[DECISION-dddddddd-n]` occurring in the
text is rewritten to a Markdown link, resolved or not: the output contains,
in its place, `decisionRepl reg id` (first conjunct), which is
`[id](url#lowercased-id)` for the first registry entry whose title starts
with `DECISION` and contains the id as a substring (second conjunct), and
otherwise the synthetic link into the fixed governance/decisions category
path with the lowercased id as anchor (third conjunct). -/
theorem c4_theorem (reg : Registry) (e1 e2 e3 e4 e5 e6 e7 e8 : Char)
    (rr a b : List Char) (content : String)
    (h1 : e1.isDigit = true) (h2 : e2.isDigit = true) (h3 : e3.isDigit = true)
    (h4 : e4.isDigit = true) (h5 : e5.isDigit = true) (h6 : e6.isDigit = true)
    (h7 : e7.isDigit = true) (h8 : e8.isDigit = true)
    (hrrne : rr ≠ []) (hrrd : ∀ c ∈ rr, c.isDigit = true)
    (hcont : content.data =
      a ++ decisionSpanOf [e1, e2, e3, e4, e5, e6, e7, e8] rr ++ b) :
    (∃ a2 b2, (ProcessCrossReferences content reg).data =
      a2 ++ decisionRepl reg (decisionIdOf [e1, e2, e3, e4, e5, e6, e7, e8] rr)
        ++ b2) ∧
    (∀ ent, reg.find? (fun e =>
        "DECISION".data.isPrefixOf (e.2.title.getD "").data &&
        containsSeq (decisionIdOf [e1, e2, e3, e4, e5, e6, e7, e8] rr)
          (e.2.title.getD "").data) = some ent →
      decisionRepl reg (decisionIdOf [e1, e2, e3, e4, e5, e6, e7, e8] rr) =
        '[' :: decisionIdOf [e1, e2, e3, e4, e5, e6, e7, e8] rr ++
          ']' :: '(' :: (ent.2.url.getD "").data ++ '#' ::
          (decisionIdOf [e1, e2, e3, e4, e5, e6, e7, e8] rr).map Char.toLower
          ++ [')']) ∧
    (reg.find? (fun e =>
        "DECISION".data.isPrefixOf (e.2.title.getD "").data &&
        containsSeq (decisionIdOf [e1, e2, e3, e4, e5, e6, e7, e8] rr)
          (e.2.title.getD "").data) = none →
      decisionRepl reg (decisionIdOf [e1, e2, e3, e4, e5, e6, e7, e8] rr) =
        '[' :: decisionIdOf [e1, e2, e3, e4, e5, e6, e7, e8] rr ++
          ']' :: '(' ::
          "\x7b\x7b site.baseurl \x7d\x7d/docs/governance/decisions/#".data ++
          (decisionIdOf [e1, e2, e3, e4, e5, e6, e7, e8] rr).map Char.toLower
          ++ [')']) := by
  refine ⟨?_, ?_, ?_⟩
  · have hspan := decisionSpan_bracketShaped e1 e2 e3 e4 e5 e6 e7 e8 rr
      h1 h2 h3 h4 h5 h6 h7 h8 hrrd
    obtain ⟨a1, b1, hp1⟩ := subScan_rw (docTryAfter reg) _ _ hspan
      (hM_doc_decisionspan reg e1 e2 e3 e4 e5 e6 e7 e8 rr _)
      (fun _ => Or.inr rfl) content.data a b hcont
    obtain ⟨a2, b2, hp2⟩ := subScan_rw (sectionTryAfter reg) _ _ hspan
      (hM_section_decisionspan reg e1 e2 e3 e4 e5 e6 e7 e8 rr _)
      (fun _ => Or.inr rfl) _ a1 b1 hp1
    obtain ⟨a3, b3, hp3⟩ := subScan_rw (decisionTryAfter reg)
      (decisionSpanOf [e1, e2, e3, e4, e5, e6, e7, e8] rr)
      (decisionRepl reg (decisionIdOf [e1, e2, e3, e4, e5, e6, e7, e8] rr))
      hspan (hM_decision_decisionspan reg e1 e2 e3 e4 e5 e6 e7 e8 rr)
      (fun b' => Or.inl ⟨_, decisionTry_total reg e1 e2 e3 e4 e5 e6 e7 e8
        rr b' hrrne hrrd h1 h2 h3 h4 h5 h6 h7 h8⟩) _ a2 b2 hp2
    exact ⟨a3, b3, hp3⟩
  · intro ent hent
    simp [decisionRepl, hent]
  · intro hent
    simp [decisionRepl, hent]

/-- C4 witness: a decision reference resolves against a registry entry whose
title carries the decision id, and falls back to the governance link against
a registry without one. -/
theorem c4_witness :
    (∃ a2 b2, (ProcessCrossReferences "x [DECISION-20250101-1] y" regDec).data
      = a2 ++ decisionRepl regDec
          (decisionIdOf ['2', '0', '2', '5', '0', '1', '0', '1'] ['1']) ++ b2)
    ∧ decisionRepl regDec
        (decisionIdOf ['2', '0', '2', '5', '0', '1', '0', '1'] ['1']) =
      '[' :: decisionIdOf ['2', '0', '2', '5', '0', '1', '0', '1'] ['1'] ++
        ']' :: '(' :: "u2".data ++ '#' ::
        (decisionIdOf ['2', '0', '2', '5', '0', '1', '0', '1'] ['1']).map
          Char.toLower ++ [')'] := by
  have h := c4_theorem regDec '2' '0' '2' '5' '0' '1' '0' '1' ['1']
    "x ".data " y".data "x [DECISION-20250101-1] y"
    (by decide) (by decide) (by decide) (by decide) (by decide) (by decide)
    (by decide) (by decide) (by decide) (by decide) (by decide)
  refine ⟨h.1, ?_⟩
  have h2 := h.2.1 ("10-20", ⟨some "DECISION-20250101-1 choices", some "u2"⟩)
    (by decide)
  simpa using h2

/-! ## Claims about the Document Content Transformer -/

theorem dropWhile_head_false {α : Type} (p : α → Bool) (l : List α) :
    ∀ x, (l.dropWhile p).head? = some x → p x = false := by
  induction l with
  | nil => simp
  | cons a l ih =>
    intro x hx
    rw [List.dropWhile_cons] at hx
    by_cases hpa : p a = true
    · rw [if_pos hpa] at hx
      exact ih x hx
    · rw [if_neg hpa] at hx
      simp only [List.head?_cons, Option.some.injEq] at hx
      rw [← hx]
      exact Bool.eq_false_iff.mpr hpa

/-- C3 counterexample: the header strip is not a single contiguous run over
the union of the three line kinds. On `"[K: V]\n**Created: X**\nbody"` the
code keeps the Created marker (the tag loop only runs after the marker
loop), while the claimed single-run strip would drop both lines. -/
theorem c3_counterexample :
    RemoveMetadataHeader "[K: V]\n**Created: X**\nbody" =
      "**Created: X**\nbody" ∧
    RemoveMetadataHeaderClaimed "[K: V]\n**Created: X**\nbody" = "body" ∧
    RemoveMetadataHeader "[K: V]\n**Created: X**\nbody" ≠
      RemoveMetadataHeaderClaimed "[K: V]\n**Created: X**\nbody" := by
  refine ⟨by decide, by decide, by decide⟩

/-- C3 (amended): `RemoveMetadataHeader` drops the leading title line if
present, then drops two contiguous runs in order — first a run of
Created/Last-Modified-marker or blank lines, then a run of tag or blank
lines — each run stopping at its first non-matching line; every line from
the end of the second run onward is returned unchanged (joined with
newlines). The strip is prefix-only. -/
theorem c3_theorem (content : String) :
    ∃ d1 d2 rest,
      afterTitleDrop (splitLinesL content.data) = d1 ++ (d2 ++ rest) ∧
      (∀ l ∈ d1, headerP1 l = true) ∧
      (∀ l ∈ d2, headerP2 l = true) ∧
      (∀ l, (d2 ++ rest).head? = some l → headerP1 l = false) ∧
      (∀ l, rest.head? = some l → headerP2 l = false) ∧
      (∀ l ls, splitLinesL content.data = l :: ls →
        (lineStarts "# " l = true →
          afterTitleDrop (splitLinesL content.data) = ls) ∧
        (lineStarts "# " l = false →
          afterTitleDrop (splitLinesL content.data) = l :: ls)) ∧
      RemoveMetadataHeader content = ⟨joinLines rest⟩ := by
  refine ⟨(afterTitleDrop (splitLinesL content.data)).takeWhile headerP1,
    ((afterTitleDrop (splitLinesL content.data)).dropWhile
      headerP1).takeWhile headerP2,
    ((afterTitleDrop (splitLinesL content.data)).dropWhile
      headerP1).dropWhile headerP2,
    ?_, ?_, ?_, ?_, ?_, ?_, rfl⟩
  · rw [List.takeWhile_append_dropWhile, List.takeWhile_append_dropWhile]
  · exact fun l hl => List.mem_takeWhile_imp hl
  · exact fun l hl => List.mem_takeWhile_imp hl
  · intro l hl
    rw [List.takeWhile_append_dropWhile] at hl
    exact dropWhile_head_false headerP1 _ l hl
  · intro l hl
    exact dropWhile_head_false headerP2 _ l hl
  · intro l ls hls
    rw [hls]
    constructor
    · intro hstart
      simp [afterTitleDrop, hstart]
    · intro hstart
      simp [afterTitleDrop, hstart]

theorem replaceAllF_of_not_contains (pat rep : List Char) :
    ∀ f l, containsSeq pat l = false → replaceAllF pat rep f l = l := by
  intro f
  induction f with
  | zero => intro l _; rfl
  | succ f ih =>
    intro l h
    cases l with
    | nil => rfl
    | cons c cs =>
      simp only [containsSeq, Bool.or_eq_false_iff] at h
      show replaceAllF pat rep (f + 1) (c :: cs) = c :: cs
      rw [replaceAllF, if_neg (by simp [h.1]), ih cs h.2]

theorem replaceAll_of_not_contains (pat rep l : List Char)
    (h : containsSeq pat l = false) : replaceAll pat rep l = l :=
  replaceAllF_of_not_contains pat rep l.length l h

/-- C7 counterexample: on the input `{{{ x }}}` (a triple brace adjacent to
a space) the escaping is mangled. The exact output is given by the first
conjunct; the substring `{{ ` is present in the original (second conjunct)
but its literal-text escape form `{{ "{{ " }}` does not occur anywhere in
the output (third conjunct) — the later triple-brace replacement consumed
part of the escape — so the claim that each such occurrence is escaped into
a form the templating engine will not evaluate is false. -/
theorem c7_counterexample :
    ProcessJekyllIncompatibleContent "\x7b\x7b\x7b x \x7d\x7d\x7d" =
      "&#123;&#123;&#123; \"\x7b\x7b \" \x7b\x7b \"\x7d\x7d\" \x7d\x7dx \x7b\x7b \"\x7d\x7d\" &#125;&#125;&#125;" ∧
    containsSeq "\x7b\x7b ".data "\x7b\x7b\x7b x \x7d\x7d\x7d".data = true ∧
    containsSeq "\x7b\x7b \"\x7b\x7b \" \x7d\x7d".data
      (ProcessJekyllIncompatibleContent "\x7b\x7b\x7b x \x7d\x7d\x7d").data
      = false := by
  refine ⟨by decide, by decide, by decide⟩

/-- C7 (amended): the escaping is six sequential global replacements in
source order (the four Liquid escapes first, then the triple braces), and
the passes interact on overlapping occurrences. On any input containing
none of the four Liquid substrings `{% `, `{{ `, ` }}`, ` %}`, the
transformation is exactly the two triple-brace replacements, each `{{{` and
`}}}` becoming its numeric character reference (second conjunct). When a
triple brace is adjacent to a space, as in `{{{ x }}}`, the earlier Liquid
escape overlaps the triple and is partially consumed, yielding the exact
output of the first conjunct. -/
theorem c7_theorem :
    ProcessJekyllIncompatibleContent "\x7b\x7b\x7b x \x7d\x7d\x7d" =
      "&#123;&#123;&#123; \"\x7b\x7b \" \x7b\x7b \"\x7d\x7d\" \x7d\x7dx \x7b\x7b \"\x7d\x7d\" &#125;&#125;&#125;" ∧
    (∀ s : String,
      containsSeq "\x7b% ".data s.data = false →
      containsSeq "\x7b\x7b ".data s.data = false →
      containsSeq " \x7d\x7d".data s.data = false →
      containsSeq " %\x7d".data s.data = false →
      ProcessJekyllIncompatibleContent s =
        ⟨replaceAll "\x7d\x7d\x7d".data "&#125;&#125;&#125;".data
          (replaceAll "\x7b\x7b\x7b".data "&#123;&#123;&#123;".data
            s.data)⟩) := by
  constructor
  · decide
  · intro s hA hB hC hD
    show (⟨replaceAll "\x7d\x7d\x7d".data "&#125;&#125;&#125;".data
      (replaceAll "\x7b\x7b\x7b".data "&#123;&#123;&#123;".data
        (replaceAll " %\x7d".data " \x7b\x7b \"%\x7d\" \x7d\x7d".data
          (replaceAll " \x7d\x7d".data " \x7b\x7b \"\x7d\x7d\" \x7d\x7d".data
            (replaceAll "\x7b\x7b ".data "\x7b\x7b \"\x7b\x7b \" \x7d\x7d".data
              (replaceAll "\x7b% ".data "\x7b\x7b \"\x7b% \" \x7d\x7d".data
                s.data)))))⟩ : String) = _
    rw [replaceAll_of_not_contains _ _ _ hA,
      replaceAll_of_not_contains _ _ _ hB,
      replaceAll_of_not_contains _ _ _ hC,
      replaceAll_of_not_contains _ _ _ hD]

/-- C7 witness: a triple brace not adjacent to any Liquid substring is
escaped by exactly the two numeric-reference replacements. -/
theorem c7_witness :
    ProcessJekyllIncompatibleContent "a\x7b\x7b\x7bb\x7d\x7d\x7dc" =
      ⟨replaceAll "\x7d\x7d\x7d".data "&#125;&#125;&#125;".data
        (replaceAll "\x7b\x7b\x7b".data "&#123;&#123;&#123;".data
          "a\x7b\x7b\x7bb\x7d\x7d\x7dc".data)⟩ :=
  c7_theorem.2 "a\x7b\x7b\x7bb\x7d\x7d\x7dc" (by decide) (by decide)
    (by decide) (by decide)

/-! ## Claims about document id extraction -/

theorem p1Match_shape (l : List Char) (id : List Char)
    (h : p1Match l = some id) :
    ∃ d1 d2 d3 d4 sep rest, d1.isDigit = true ∧ d2.isDigit = true ∧
      d3.isDigit = true ∧ d4.isDigit = true ∧
      (sep = '-' ∨ sep = ' ' ∨ sep = '_') ∧
      l = d1 :: d2 :: '-' :: d3 :: d4 :: sep :: rest := by
  rw [p1Match.eq_def] at h
  split at h
  case h_2 => simp at h
  case h_1 d1 d2 c3 d3 d4 sep rest =>
    split at h
    case isFalse => simp at h
    case isTrue hcond =>
      simp only [Bool.and_eq_true, Bool.or_eq_true, decide_eq_true_eq]
        at hcond
      obtain ⟨⟨⟨⟨⟨h1, h2⟩, h3⟩, h4⟩, h5⟩, h6⟩ := hcond
      subst h3
      exact ⟨d1, d2, d3, d4, sep, rest, h1, h2, h4, h5,
        by tauto, rfl⟩

theorem p2Match_shape (l : List Char) (id : List Char)
    (h : p2Match l = some id) :
    ∃ d1 d2 d3 d4, d1.isDigit = true ∧ d2.isDigit = true ∧
      d3.isDigit = true ∧ d4.isDigit = true ∧
      l = [d1, d2, '-', d3, d4, '.', 'm', 'd'] := by
  rw [p2Match.eq_def] at h
  split at h
  case h_2 => simp at h
  case h_1 d1 d2 c3 d3 d4 =>
    split at h
    case isFalse => simp at h
    case isTrue hcond =>
      simp only [Bool.and_eq_true, decide_eq_true_eq] at hcond
      obtain ⟨⟨⟨⟨h1, h2⟩, h3⟩, h4⟩, h5⟩ := hcond
      subst h3
      exact ⟨d1, d2, d3, d4, h1, h2, h4, h5, rfl⟩

theorem p3Match_shape (l : List Char) (id : List Char)
    (h : p3Match l = some id) :
    ∃ pre d1 d2 d3 d4, d1.isDigit = true ∧ d2.isDigit = true ∧
      d3.isDigit = true ∧ d4.isDigit = true ∧
      l = pre ++ '-' :: d1 :: d2 :: '-' :: d3 :: d4 :: '.' :: 'm' :: ['d'] := by
  rw [p3Match.eq_def] at h
  split at h
  case h_2 => simp at h
  case h_1 e4 e3 hh e2 e1 h2' restR heqrev =>
    split at h
    case isFalse => simp at h
    case isTrue hcond =>
      simp only [Bool.and_eq_true, decide_eq_true_eq] at hcond
      obtain ⟨⟨⟨⟨⟨h1, h2⟩, h3⟩, h4⟩, h5⟩, h6⟩ := hcond
      subst h3 h6
      refine ⟨restR.reverse, e1, e2, e3, e4, h1, h2, h4, h5, ?_⟩
      have hl : l = l.reverse.reverse := (List.reverse_reverse l).symm
      rw [hl, heqrev]
      simp

theorem shape1_p1Match (f : String) (h : Shape1 f) :
    ∃ id, p1Match f.data = some id := by
  obtain ⟨d1, d2, d3, d4, sep, rest, h1, h2, h3, h4, hsep, hdata⟩ := h
  rw [hdata]
  rcases hsep with rfl | rfl | rfl <;>
    exact ⟨[d1, d2, '-', d3, d4], by simp [p1Match, h1, h2, h3, h4]⟩

theorem shape2_p2Match (f : String) (h : Shape2 f) :
    ∃ id, p2Match f.data = some id := by
  obtain ⟨d1, d2, d3, d4, h1, h2, h3, h4, hdata⟩ := h
  rw [hdata]
  exact ⟨[d1, d2, '-', d3, d4], by simp [p2Match, h1, h2, h3, h4]⟩

theorem shape3_p3Match (f : String) (h : Shape3 f) :
    ∃ id, p3Match f.data = some id := by
  obtain ⟨pre, d1, d2, d3, d4, h1, h2, h3, h4, hdata⟩ := h
  have hrev : f.data.reverse = 'd' :: 'm' :: '.' :: d4 :: d3 :: '-' ::
      d2 :: d1 :: '-' :: pre.reverse := by
    rw [hdata]
    simp
  refine ⟨[d1, d2, '-', d3, d4], ?_⟩
  rw [p3Match.eq_def, hrev]
  simp [h1, h2, h3, h4]

/-- C6: document id extraction from a filename. First conjunct: whenever the
filename starts with two digit pairs joined by `-` and followed by a
separator (`-`, space or underscore), `GetDocumentID` returns exactly those
leading groups, whatever follows — the first pattern wins. Second conjunct:
on a filename matching none of the three patterns (leading id with
separator, id as the entire `.md` name, dashed id suffix before `.md`), the
extraction returns the empty string — a skip, not an error. -/
theorem c6_theorem (f : String) :
    (∀ d1 d2 d3 d4 sep rest, d1.isDigit = true → d2.isDigit = true →
      d3.isDigit = true → d4.isDigit = true →
      (sep = '-' ∨ sep = ' ' ∨ sep = '_') →
      f.data = d1 :: d2 :: '-' :: d3 :: d4 :: sep :: rest →
      GetDocumentID f = ⟨[d1, d2, '-', d3, d4]⟩) ∧
    (¬Shape1 f → ¬Shape2 f → ¬Shape3 f → GetDocumentID f = "") := by
  constructor
  · intro d1 d2 d3 d4 sep rest h1 h2 h3 h4 hsep hdata
    have hp1 : p1Match f.data = some [d1, d2, '-', d3, d4] := by
      rw [hdata]
      rcases hsep with rfl | rfl | rfl <;> simp [p1Match, h1, h2, h3, h4]
    simp [GetDocumentID, hp1]
  · intro hn1 hn2 hn3
    cases hp1 : p1Match f.data with
    | some id =>
      obtain ⟨d1, d2, d3, d4, sep, rest, h1, h2, h3, h4, hsep, hdata⟩ :=
        p1Match_shape f.data id hp1
      exact absurd ⟨d1, d2, d3, d4, sep, rest, h1, h2, h3, h4, hsep, hdata⟩ hn1
    | none =>
      cases hp2 : p2Match f.data with
      | some id =>
        obtain ⟨d1, d2, d3, d4, h1, h2, h3, h4, hdata⟩ :=
          p2Match_shape f.data id hp2
        exact absurd ⟨d1, d2, d3, d4, h1, h2, h3, h4, hdata⟩ hn2
      | none =>
        cases hp3 : p3Match f.data with
        | some id =>
          obtain ⟨pre, d1, d2, d3, d4, h1, h2, h3, h4, hdata⟩ :=
            p3Match_shape f.data id hp3
          exact absurd ⟨pre, d1, d2, d3, d4, h1, h2, h3, h4, hdata⟩ hn3
        | none => simp [GetDocumentID, hp1, hp2, hp3]

/-- C6 witness: a leading identifier with dash separator is extracted, and a
patternless filename yields the empty string. -/
theorem c6_witness :
    GetDocumentID "10-20-Vision.md" = "10-20" ∧
    GetDocumentID "README.md" = "" := by
  constructor
  · exact ( c6_theorem "10-20-Vision.md").1 '1' '0' '2' '0' '-'
      "Vision.md".data (by decide) (by decide) (by decide) (by decide)
      (Or.inl rfl) (by decide)
  · refine ( c6_theorem "README.md").2 ?_ ?_ ?_
    · intro h
      obtain ⟨id, e⟩ := shape1_p1Match _ h
      rw [show p1Match "README.md".data = none from by decide] at e
      exact absurd e (by simp)
    · intro h
      obtain ⟨id, e⟩ := shape2_p2Match _ h
      rw [show p2Match "README.md".data = none from by decide] at e
      exact absurd e (by simp)
    · intro h
      obtain ⟨id, e⟩ := shape3_p3Match _ h
      rw [show p3Match "README.md".data = none from by decide] at e
      exact absurd e (by simp)

/-! ## Dictionary lemmas for the metadata extractor -/

theorem dictGet_set_self (m : List (String × String)) (k v : String) :
    dictGet (dictSet m k v) k = some v := by
  rw [dictSet]
  by_cases hany : m.any (fun e => e.1 == k) = true
  · rw [if_pos hany]
    induction m with
    | nil => simp at hany
    | cons e m ih =>
      rw [List.map_cons]
      by_cases he : (e.1 == k) = true
      · rw [if_pos he]
        simp [dictGet]
      · rw [if_neg he]
        have hany' : m.any (fun e => e.1 == k) = true := by
          rw [List.any_cons, Bool.or_eq_true] at hany
          exact hany.resolve_left he
        have hfe : (e.1 == k) = false := Bool.eq_false_iff.mpr he
        have hrec := ih hany'
        rw [dictGet] at hrec ⊢
        simp only [List.find?, hfe]
        exact hrec
  · rw [if_neg hany]
    have hfind : m.find? (fun e => e.1 == k) = none := by
      rw [List.find?_eq_none]
      intro x hx hpx
      exact hany (List.any_eq_true.mpr ⟨x, hx, hpx⟩)
    rw [dictGet, List.find?_append, hfind]
    simp

theorem dictGet_set_ne (m : List (String × String)) (k v k' : String)
    (hne : k' ≠ k) : dictGet (dictSet m k v) k' = dictGet m k' := by
  have hkk : (k == k') = false := by
    simp
    exact fun hc => hne hc.symm
  rw [dictSet]
  by_cases hany : m.any (fun e => e.1 == k) = true
  · rw [if_pos hany]
    rw [dictGet, dictGet]
    clear hany
    induction m with
    | nil => simp
    | cons e m ih =>
      rw [List.map_cons]
      by_cases he : (e.1 == k) = true
      · rw [if_pos he]
        have hek : e.1 = k := by simpa using he
        simp only [List.find?, hkk, hek]
        exact ih
      · rw [if_neg he]
        by_cases hk' : (e.1 == k') = true
        · simp only [List.find?, hk']
        · have hfe : (e.1 == k') = false := Bool.eq_false_iff.mpr hk'
          simp only [List.find?, hfe]
          exact ih
  · rw [if_neg hany]
    rw [dictGet, dictGet, List.find?_append]
    have hlast : List.find? (fun e => e.1 == k') [(k, v)] = none := by
      simp
      exact fun hc => hne hc.symm
    rw [hlast]
    simp

theorem titleStage_get_ne (content : String) (m : List (String × String))
    (k' : String) (h : k' ≠ "title") :
    dictGet (titleStage content m) k' = dictGet m k' := by
  rw [titleStage]
  cases titleCapture content with
  | none => rfl
  | some t => exact dictGet_set_ne m "title" t k' h

theorem markerStage_get_ne (cap : String → Option String)
    (key datekey : String) (content : String) (m : List (String × String))
    (k' : String) (h1 : k' ≠ key) (h2 : k' ≠ datekey) :
    dictGet (markerStage cap key datekey content m) k' = dictGet m k' := by
  rw [markerStage]
  cases cap content with
  | none => rfl
  | some v =>
    simp only []
    cases ParseTimestamp v with
    | none => exact dictGet_set_ne m key v k' h1
    | some dt =>
      rw [dictGet_set_ne _ datekey _ k' h2]
      exact dictGet_set_ne m key v k' h1

theorem docNumStage_get_ne (content : String) (m : List (String × String))
    (k' : String) (h : k' ≠ "doc_number") :
    dictGet (docNumStage content m) k' = dictGet m k' := by
  rw [docNumStage]
  cases docNumberSearch content.data with
  | none => rfl
  | some id => exact dictGet_set_ne m "doc_number" id k' h

theorem dictGet_foldl_ne (tags : List (String × String)) (k' : String)
    (h : ∀ kv ∈ tags, lowerS kv.1 ≠ k') :
    ∀ m, dictGet (tags.foldl
      (fun m kv => dictSet m (lowerS kv.1) (pyStripS kv.2)) m) k' =
      dictGet m k' := by
  induction tags with
  | nil => intro m; rfl
  | cons t ts ih =>
    intro m
    rw [List.foldl_cons]
    rw [ih (fun kv hkv => h kv (List.mem_cons_of_mem t hkv))]
    exact dictGet_set_ne m _ _ k' (fun hc => h t (List.mem_cons_self t ts) hc.symm)

theorem tagStage_get_ne (content : String) (m : List (String × String))
    (k' : String) (h : ∀ kv ∈ contextTags content, lowerS kv.1 ≠ k') :
    dictGet (tagStage content m) k' = dictGet m k' :=
  dictGet_foldl_ne (contextTags content) k' h m

theorem getLast?_cons_ne {α : Type} (a : α) (l : List α) (h : l ≠ []) :
    (a :: l).getLast? = l.getLast? := by
  cases l with
  | nil => exact absurd rfl h
  | cons b l => exact List.getLast?_cons_cons

theorem dictGet_foldl_last (key : String) (tags : List (String × String)) :
    ∀ (m : List (String × String)) (kv0 : String × String),
      (tags.filter (fun kv => lowerS kv.1 == key)).getLast? = some kv0 →
      dictGet (tags.foldl
        (fun m kv => dictSet m (lowerS kv.1) (pyStripS kv.2)) m) key =
        some (pyStripS kv0.2) := by
  induction tags with
  | nil => intro m kv0 h; simp at h
  | cons t ts ih =>
    intro m kv0 h
    rw [List.foldl_cons]
    by_cases hts : ts.filter (fun kv => lowerS kv.1 == key) = []
    · rw [List.filter_cons] at h
      by_cases hmatch : (lowerS t.1 == key) = true
      · rw [if_pos hmatch, hts] at h
        simp only [List.getLast?_singleton, Option.some.injEq] at h
        subst h
        have hnone : ∀ kv ∈ ts, lowerS kv.1 ≠ key := by
          intro kv hkv hkey
          have hmem : kv ∈ ts.filter (fun kv => lowerS kv.1 == key) :=
            List.mem_filter.mpr ⟨hkv, by simp [hkey]⟩
          rw [hts] at hmem
          simp at hmem
        rw [dictGet_foldl_ne ts key hnone]
        have hk : lowerS t.1 = key := by simpa using hmatch
        rw [hk]
        exact dictGet_set_self m key (pyStripS t.2)
      · rw [if_neg hmatch, hts] at h
        simp at h
    · have hlast : (ts.filter (fun kv => lowerS kv.1 == key)).getLast?
          = some kv0 := by
        rw [List.filter_cons] at h
        by_cases hmatch : (lowerS t.1 == key) = true
        · rw [if_pos hmatch] at h
          rwa [getLast?_cons_ne t _ hts] at h
        · rwa [if_neg hmatch] at h
      exact ih _ kv0 hlast

/-! ## Claims about the Metadata Extractor -/

/-- C8 counterexample: the bare identifier scan overwrites `doc_number`
unconditionally. In `"see 11-22\n[Doc_Number: 99-99]"` the context tag sets
`doc_number` to `99-99` (first conjunct shows the tag is matched), yet the
final mapping carries `11-22`, the first bare `dd-dd` match in the text —
the claimed only-if-not-already-set guard does not exist in the code. -/
theorem c8_counterexample :
    contextTags "see 11-22\n[Doc_Number: 99-99]" = [("Doc_Number", "99-99")] ∧
    dictGet (ExtractMetadata "see 11-22\n[Doc_Number: 99-99]") "doc_number"
      = some "11-22" ∧
    dictGet (ExtractMetadata "see 11-22\n[Doc_Number: 99-99]") "doc_number"
      ≠ some "99-99" := by
  refine ⟨by decide, by decide, by decide⟩

/-- C8 (amended): the bare identifier scan runs last and overwrites
`doc_number` unconditionally — whenever the text contains any `dd-dd`
match, the final `doc_number` is the leftmost such match, regardless of any
value a context tag had stored under that key. -/
theorem c8_theorem (content : String) (id : String)
    (h : docNumberSearch content.data = some id) :
    dictGet (ExtractMetadata content) "doc_number" = some id := by
  rw [ExtractMetadata, docNumStage, h]
  exact dictGet_set_self _ "doc_number" id

/-- C8 witness: the scan result wins on the counterexample input. -/
theorem c8_witness :
    dictGet (ExtractMetadata "see 11-22\n[Doc_Number: 99-99]") "doc_number"
      = some "11-22" :=
  c8_theorem "see 11-22\n[Doc_Number: 99-99]" "11-22" (by decide)

/-- C10: context-tag keys are lowercased into the same flat mapping, after
title and timestamp extraction; therefore when the context-tag scan matches
a `[Title: ...]` tag, the returned title is the stripped value of the last
such tag (first conjunct), and tags whose lowercased key is `created_at`,
`modified_at`, `created_date` or `modified_date` likewise overwrite the
marker-derived values (second conjunct). -/
theorem c10_theorem (content : String) (v : String) :
    (lastTagValue content "title" = some v →
      dictGet (ExtractMetadata content) "title" = some (pyStripS v)) ∧
    (∀ k, (k = "created_at" ∨ k = "modified_at" ∨ k = "created_date" ∨
        k = "modified_date") →
      lastTagValue content k = some v →
      dictGet (ExtractMetadata content) k = some (pyStripS v)) := by
  have main : ∀ k : String, k ≠ "doc_number" →
      lastTagValue content k = some v →
      dictGet (ExtractMetadata content) k = some (pyStripS v) := by
    intro k hk hlast
    rw [lastTagValue] at hlast
    obtain ⟨kv0, hkv0, hv⟩ := Option.map_eq_some'.mp hlast
    rw [ExtractMetadata, docNumStage_get_ne _ _ k hk, tagStage, ← hv]
    exact dictGet_foldl_last k (contextTags content) _ kv0 hkv0
  refine ⟨main "title" (by decide), fun k hk => main k ?_⟩
  rcases hk with rfl | rfl | rfl | rfl <;> decide

/-- C10 witness: a Title tag overrides the heading, and a Created_At tag
overrides the marker value. -/
theorem c10_witness :
    dictGet (ExtractMetadata "# H\n[Title:  X ]") "title" = some "X" ∧
    dictGet (ExtractMetadata "**Created: old**\n[Created_At: new]")
      "created_at" = some "new" := by
  constructor
  · have h := ( c10_theorem "# H\n[Title:  X ]" " X ").1 (by decide)
    rw [show pyStripS " X " = "X" from by decide] at h
    exact h
  · have h := ( c10_theorem "**Created: old**\n[Created_At: new]" "new").2
      "created_at" (Or.inl rfl) (by decide)
    rw [show pyStripS "new" = "new" from by decide] at h
    exact h

/-- C5: timestamp parsing and its use in extraction. The two concrete
formats normalize to `2025-03-15`; `"not a date"` fails to parse; when the
Created marker matches but its value fails to parse, `created_at` keeps the
captured (stripped) string and `created_date` is absent, provided no
context tag reintroduces those keys; and the fallback parser's 12-hour
normalization sends 12 AM to hour 0 and adds 12 for PM unless the hour is
already 12. -/
theorem c5_theorem :
    (ParseTimestamp "March 15, 2025 3:15 PM").map formatDate
      = some "2025-03-15" ∧
    (ParseTimestamp "2025-03-15 15:15").map formatDate = some "2025-03-15" ∧
    ParseTimestamp "not a date" = none ∧
    (∀ (content : String) (v : String),
      createdCapture content = some v →
      ParseTimestamp v = none →
      (∀ kv ∈ contextTags content,
        lowerS kv.1 ≠ "created_at" ∧ lowerS kv.1 ≠ "created_date") →
      dictGet (ExtractMetadata content) "created_at" = some v ∧
      dictGet (ExtractMetadata content) "created_date" = none) ∧
    (∀ h : Nat, 1 ≤ h → h ≤ 12 →
      adjustHour h (some "PM") = (if h = 12 then 12 else h + 12) ∧
      adjustHour h (some "AM") = (if h = 12 then 0 else h)) := by
  refine ⟨by decide, by decide, by decide, ?_, ?_⟩
  · intro content v hcap hparse htags
    constructor
    · rw [ExtractMetadata, docNumStage_get_ne _ _ _ (by decide),
        tagStage_get_ne _ _ _ (fun kv hkv => (htags kv hkv).1),
        markerStage_get_ne _ _ _ _ _ _ (by decide) (by decide),
        markerStage, hcap]
      simp only []
      rw [hparse]
      exact dictGet_set_self _ "created_at" v
    · rw [ExtractMetadata, docNumStage_get_ne _ _ _ (by decide),
        tagStage_get_ne _ _ _ (fun kv hkv => (htags kv hkv).2),
        markerStage_get_ne _ _ _ _ _ _ (by decide) (by decide),
        markerStage, hcap]
      simp only []
      rw [hparse, dictGet_set_ne _ _ _ _ (by decide),
        titleStage_get_ne _ _ _ (by decide)]
      rfl
  · intro h h1 h12
    interval_cases h <;> exact ⟨by decide, by decide⟩

/-- C5 witness: a concrete unparseable Created marker keeps the verbatim
value and omits the normalized date, and concrete fallback hours
normalize. -/
theorem c5_witness :
    (dictGet (ExtractMetadata "**Created: nope**") "created_at" = some "nope"
      ∧ dictGet (ExtractMetadata "**Created: nope**") "created_date" = none)
    ∧ adjustHour 3 (some "PM") = 15 ∧ adjustHour 12 (some "AM") = 0 := by
  refine ⟨c5_theorem.2.2.2.1 "**Created: nope**" "nope" (by decide)
    (by decide) (by decide), ?_, ?_⟩
  · have h := (c5_theorem.2.2.2.2 3 (by decide) (by decide)).1
    rw [h]
    decide
  · have h := (c5_theorem.2.2.2.2 12 (by decide) (by decide)).2
    rw [h]
    decide

/-- C9: extraction never fails. The embedding of `ExtractMetadata` is a
total function (first conjunct); and a timestamp whose marker matched but
whose value fails to parse only omits the normalized date field — the
marker stage still records the verbatim value and changes nothing else, for
the Created marker (second conjunct) and the Last-Modified marker (third
conjunct) — so a per-field parse failure never aborts the extraction. -/
theorem c9_theorem :
    (∀ content : String, ∃ m, ExtractMetadata content = m) ∧
    (∀ (content : String) (m : List (String × String)) (v : String),
      createdCapture content = some v → ParseTimestamp v = none →
      markerStage createdCapture "created_at" "created_date" content m =
        dictSet m "created_at" v) ∧
    (∀ (content : String) (m : List (String × String)) (v : String),
      modifiedCapture content = some v → ParseTimestamp v = none →
      markerStage modifiedCapture "modified_at" "modified_date" content m =
        dictSet m "modified_at" v) := by
  refine ⟨fun content => ⟨ExtractMetadata content, rfl⟩, ?_, ?_⟩
  all_goals
    intro content m v hcap hparse
    rw [markerStage, hcap]
    simp only []
    rw [hparse]

/-- C9 witness: the two marker stages on concrete unparseable values. -/
theorem c9_witness :
    markerStage createdCapture "created_at" "created_date"
      "**Created: nope**" [] = dictSet [] "created_at" "nope" ∧
    markerStage modifiedCapture "modified_at" "modified_date"
      "**Last Modified: nope**" [] = dictSet [] "modified_at" "nope" :=
  ⟨c9_theorem.2.1 "**Created: nope**" [] "nope" (by decide) (by decide),
   c9_theorem.2.2 "**Last Modified: nope**" [] "nope" (by decide)
     (by decide)⟩
